import Mathlib

/-!
# CloudPrism: state store lifecycle and naming utilities

A shallow embedding of `common/types.go`, `common/util.go`,
`common/statestore_awss3.go`, `common/statestore_default.go` and
`common/recipe_default.go`.

Go strings are embedded as Lean strings read rune by rune (a byte that is not
valid UTF-8 is read by `strings.ToLower` and by `regexp` as U+FFFD, so it is
represented by that rune).  Go `error` values are embedded by their message.
-/

namespace CloudPrism

/-! ## Naming utilities (`types.go`, `util.go`) -/

/-- Go `strings.ReplaceAll(s, old, new)` for one-rune `old` and `new`. -/
def replaceAllChar (old new : Char) (s : List Char) : List Char :=
  s.map fun c => if c = old then new else c

/-- Go `unicode.ToLower`: the ASCII branch is the library's code; above ASCII the
library consults its `CaseRanges` table, which is the parameter `caseRanges`. -/
def unicodeToLower (caseRanges : Char → Char) (r : Char) : Char :=
  if r.toNat ≤ 0x7F then
    if 'A'.toNat ≤ r.toNat ∧ r.toNat ≤ 'Z'.toNat then
      Char.ofNat (r.toNat + ('a'.toNat - 'A'.toNat))
    else r
  else caseRanges r

/-- Go `strings.ToLower`: `unicode.ToLower` applied to every rune. -/
def stringsToLower (caseRanges : Char → Char) (s : List Char) : List Char :=
  s.map (unicodeToLower caseRanges)

/-- Membership in the character class `a-zA-Z0-9-` of the regular expression
in `Application.ID`. -/
def classAlnumHyphen (c : Char) : Bool :=
  ('a'.toNat ≤ c.toNat && c.toNat ≤ 'z'.toNat) ||
  ('A'.toNat ≤ c.toNat && c.toNat ≤ 'Z'.toNat) ||
  ('0'.toNat ≤ c.toNat && c.toNat ≤ '9'.toNat) ||
  c.toNat == '-'.toNat

/-- Membership in the character class `a-zA-Z0-9-.` of the regular expression
in `SanitizeForID`. -/
def classAlnumHyphenDot (c : Char) : Bool :=
  ('a'.toNat ≤ c.toNat && c.toNat ≤ 'z'.toNat) ||
  ('A'.toNat ≤ c.toNat && c.toNat ≤ 'Z'.toNat) ||
  ('0'.toNat ≤ c.toNat && c.toNat ≤ '9'.toNat) ||
  c.toNat == '-'.toNat || c.toNat == '.'.toNat

/-- Go `regexp.MustCompile("[^CLASS]+").ReplaceAllString(s, "")`: every maximal
run of runes outside the class is replaced by the empty string, which leaves
exactly the runes of the class, in order. -/
def replaceAllOutsideClass (cls : Char → Bool) (s : List Char) : List Char :=
  s.filter cls

/-- Go `type Application string`. -/
abbrev Application := String

/-- Go `func (a Application) ID() string`. -/
def Application.ID (caseRanges : Char → Char) (a : Application) : String :=
  let id := stringsToLower caseRanges (replaceAllChar ' ' '-' a.data)
  String.mk (replaceAllOutsideClass classAlnumHyphen id)

/-- Go `func SanitizeForID(unclean string) string`. -/
def SanitizeForID (caseRanges : Char → Char) (unclean : String) : String :=
  let lowercase := stringsToLower caseRanges (replaceAllChar ' ' '-' unclean.data)
  let sanitized := replaceAllOutsideClass classAlnumHyphenDot lowercase
  String.mk sanitized

/-- Go `type ApplicationEnvironment uint`. -/
abbrev ApplicationEnvironment := Nat

def AppEnvSandbox : ApplicationEnvironment := 0
def AppEnvDevelopment : ApplicationEnvironment := 1
def AppEnvIntegration : ApplicationEnvironment := 2
def AppEnvProduction : ApplicationEnvironment := 3

/-- Go `func (s ApplicationEnvironment) ID() string`. -/
def ApplicationEnvironment.ID (s : ApplicationEnvironment) : String :=
  if s = AppEnvSandbox then "sbx"
  else if s = AppEnvDevelopment then "dev"
  else if s = AppEnvIntegration then "int"
  else if s = AppEnvProduction then "prd"
  else "etc"

/-- Go `type StateStoreNameType string`. -/
abbrev StateStoreNameType := String

/-- Go `func StateStoreName(app Application, env ApplicationEnvironment)`. -/
def StateStoreName (caseRanges : Char → Char) (app : Application)
    (env : ApplicationEnvironment) : StateStoreNameType :=
  Application.ID caseRanges app ++ "-" ++ ApplicationEnvironment.ID env

/-- The runes `[a-z0-9-]`. -/
def lowerAlnumHyphen (c : Char) : Prop :=
  ('a'.toNat ≤ c.toNat ∧ c.toNat ≤ 'z'.toNat) ∨
  ('0'.toNat ≤ c.toNat ∧ c.toNat ≤ '9'.toNat) ∨ c = '-'

/-- The runes `[a-z0-9-.]`. -/
def lowerAlnumHyphenDot (c : Char) : Prop :=
  lowerAlnumHyphen c ∨ c = '.'

/-- What the sanitizers rely on in the library's case table: no rune above
ASCII has an ASCII upper-case letter as its lower case. -/
def NoUpperFromTable (caseRanges : Char → Char) : Prop :=
  ∀ r : Char, 0x7F < r.toNat →
    ¬ ('A'.toNat ≤ (caseRanges r).toNat ∧ (caseRanges r).toNat ≤ 'Z'.toNat)

/-- A case table for the examples: above ASCII only the two runes whose lower
case is ASCII are mapped (U+0130 to `i`, U+212A to `k`). -/
def sampleCaseRanges (r : Char) : Char :=
  if r.toNat = 0x130 then 'i' else if r.toNat = 0x212A then 'k' else r

/-! ## Collaborators of the state stores

The object-storage client, the process environment, the engine executable and
the filesystem are outside the repository.  They are embedded as a
deterministic machine over a state `σ`; every side-effecting call the code
makes is recorded, in order, with its arguments and its error. -/

/-- A Go `error`, by its message. -/
abbrev GoError := String

/-- The side-effecting calls of the state stores, with the arguments the code
passes. -/
inductive Call where
  | ListBuckets
  | HeadBucket (bucket : String)
  | CreateBucket (bucket locationConstraint : String)
  | PutBucketTagging (bucket : String) (tagSet : List (String × String))
  | PutBucketEncryption (bucket sseAlgorithm : String)
  | ListObjectsV2 (bucket : String) (continuationToken : Option String)
  | ListObjectVersions (bucket : String) (keyMarker versionIdMarker : Option String)
  | DeleteObject (bucket key : String) (versionId : Option String)
  | DeleteBucket (bucket : String)
  | Setenv (key value : String)
  | Exec (dir : Option String) (name : String) (args : List String)
  | RemoveAll (path : String)
  | Remove (path : String)
  | MkdirAll (path : String) (perm : Nat)
  deriving DecidableEq

/-- One recorded call: what was called and the error it returned (`none` is
Go's `nil`). -/
structure Event where
  call : Call
  err : Option GoError
  deriving DecidableEq

/-- Go `types.Object`, the field the code reads. -/
structure Object where
  Key : String
  deriving DecidableEq

/-- Go `types.ObjectVersion` and `types.DeleteMarkerEntry`, the fields the code
reads. -/
structure ObjectVersion where
  Key : String
  VersionId : Option String
  deriving DecidableEq

/-- Go `s3.ListObjectsV2Output`, the fields of the paging protocol:
`ContinuationToken` is the token the request was sent with, and
`NextContinuationToken` the token for the page that follows. -/
structure ListObjectsV2Output where
  Contents : List Object
  IsTruncated : Bool
  ContinuationToken : Option String
  NextContinuationToken : Option String
  deriving DecidableEq

/-- Go `s3.ListObjectVersionsOutput`, the fields the code reads. -/
structure ListObjectVersionsOutput where
  DeleteMarkers : List ObjectVersion
  Versions : List ObjectVersion
  IsTruncated : Bool
  NextKeyMarker : Option String
  NextVersionIdMarker : Option String
  deriving DecidableEq

/-- The collaborators.  Pointer fields that the service always fills (bucket
names, object keys, the created bucket's location) are plain values.
`ParseRequestURI` is `url.ParseRequestURI` reduced to its error, and
`pathJoin` is `path.Join`; both are library functions.  `filepathAbs` is the
string `filepath.Abs` returns and `Getwd` the string `os.Getwd` returns (the
code discards the error of both); they read the working directory, which is
part of the state. -/
structure Env (σ : Type) where
  ListBuckets : σ → Except GoError (List String) × σ
  HeadBucket : String → σ → Option GoError × σ
  CreateBucket : String → String → σ → Except GoError String × σ
  PutBucketTagging : String → List (String × String) → σ → Option GoError × σ
  PutBucketEncryption : String → String → σ → Option GoError × σ
  ListObjectsV2 : String → Option String → σ → Except GoError ListObjectsV2Output × σ
  ListObjectVersions :
    String → Option String → Option String → σ → Except GoError ListObjectVersionsOutput × σ
  DeleteObject : String → String → Option String → σ → Option GoError × σ
  DeleteBucket : String → σ → Option GoError × σ
  Setenv : String → String → σ → Option GoError × σ
  ParseRequestURI : String → Option GoError
  Exec : Option String → String → List String → σ → Option GoError × σ
  RemoveAll : String → σ → Option GoError × σ
  Remove : String → σ → Option GoError × σ
  pathJoin : String → String → String
  MkdirAll : String → Nat → σ → Option GoError × σ
  filepathAbs : String → σ → String
  Getwd : σ → String

/-- How a function ends: it returns a value with a nil error, returns a
non-nil error, panics, or is still looping when the iteration budget of the
embedding is used up. -/
inductive Outcome (α : Type) where
  | ok (a : α)
  | err (e : GoError)
  | panic (v : String)
  | outOfFuel
  deriving DecidableEq

/-- The result of running a function from a collaborator state: how it ended,
the state it left, and the calls it made, oldest first. -/
structure Res (σ α : Type) where
  out : Outcome α
  st : σ
  events : List Event

/-- Returning `a` without any call. -/
def Res.pure {σ α : Type} (a : α) (s : σ) : Res σ α := ⟨.ok a, s, []⟩

/-- Sequencing with `if err != nil { return err }`: the rest runs only after a
nil error, and an error, a panic or an exhausted budget ends the function. -/
def Res.andThen {σ α β : Type} (r : Res σ α) (f : α → σ → Res σ β) : Res σ β :=
  match r.out with
  | .ok a => ⟨(f a r.st).out, (f a r.st).st, r.events ++ (f a r.st).events⟩
  | .err e => ⟨.err e, r.st, r.events⟩
  | .panic v => ⟨.panic v, r.st, r.events⟩
  | .outOfFuel => ⟨.outOfFuel, r.st, r.events⟩

/-- A call that returns only an error; `wrap` is what the code returns from
the call's error. -/
def callErr {σ : Type} (c : Call) (wrap : GoError → GoError)
    (op : σ → Option GoError × σ) (s : σ) : Res σ Unit :=
  match (op s).1 with
  | none => ⟨.ok (), (op s).2, [⟨c, none⟩]⟩
  | some e => ⟨.err (wrap e), (op s).2, [⟨c, some e⟩]⟩

/-- A call that returns an output and an error. -/
def callOut {σ α : Type} (c : Call) (wrap : GoError → GoError)
    (op : σ → Except GoError α × σ) (s : σ) : Res σ α :=
  match (op s).1 with
  | .ok a => ⟨.ok a, (op s).2, [⟨c, none⟩]⟩
  | .error e => ⟨.err (wrap e), (op s).2, [⟨c, some e⟩]⟩

/-! ## Object-storage state store (`statestore_awss3.go`) -/

/-- Go `type awsS3StateStore struct`, the fields the operations read. -/
structure awsS3StateStore where
  baseName : String
  bucketRegion : String
  bucketTags : List (String × String)
  deriving DecidableEq

/-- Go `func GetAWSS3StateStore(baseName, bucketTags)`: `getenv` is `os.Getenv`
and `loadConfig` the error of `config.LoadDefaultConfig` for a region. -/
def GetAWSS3StateStore (getenv : String → String) (loadConfig : String → Option GoError)
    (baseName : String) (bucketTags : List (String × String)) :
    Except GoError awsS3StateStore :=
  let bucketRegion :=
    if getenv "AWS_DEFAULT_REGION" = "" then "eu-central-1" else getenv "AWS_DEFAULT_REGION"
  match loadConfig bucketRegion with
  | some err => .error err
  | none => .ok { baseName := baseName, bucketRegion := bucketRegion, bucketTags := bucketTags }

/-- Go `func (ss *awsS3StateStore) BucketName() string`. -/
def awsS3StateStore.BucketName (ss : awsS3StateStore) : String :=
  ss.baseName ++ "-state"

/-- Go `aws.ToString`: the pointed-to string, or `""` for nil. -/
def awsToString (p : Option String) : String :=
  match p with
  | some v => v
  | none => ""

/-- Go `types.ServerSideEncryptionAes256`. -/
def ServerSideEncryptionAes256 : String := "AES256"

/-- Go `func (ss *awsS3StateStore) bucketExists() (bool, error)`. -/
def awsS3StateStore.bucketExists {σ : Type} (env : Env σ) (ss : awsS3StateStore)
    (s : σ) : Res σ Bool :=
  (callOut .ListBuckets id env.ListBuckets s).andThen fun buckets s1 =>
    Res.pure (buckets.any fun name => name == ss.BucketName) s1

/-- Go `func (ss *awsS3StateStore) bucketIsAccessible() error`. -/
def awsS3StateStore.bucketIsAccessible {σ : Type} (env : Env σ) (ss : awsS3StateStore)
    (s : σ) : Res σ Unit :=
  callErr (.HeadBucket ss.BucketName) id (env.HeadBucket ss.BucketName) s

/-- Go `func (ss *awsS3StateStore) createBucket() error`.  The tag set is built
by ranging over the tag map; the list gives the order of that iteration. -/
def awsS3StateStore.createBucket {σ : Type} (env : Env σ) (ss : awsS3StateStore)
    (s : σ) : Res σ Unit :=
  let argBucketName := ss.BucketName
  (callOut (.CreateBucket argBucketName ss.bucketRegion) id
      (env.CreateBucket argBucketName ss.bucketRegion) s).andThen fun _ s1 =>
  (if ss.bucketTags.length > 0 then
      callErr (.PutBucketTagging argBucketName ss.bucketTags) id
        (env.PutBucketTagging argBucketName ss.bucketTags) s1
    else Res.pure () s1).andThen fun _ s2 =>
  callErr (.PutBucketEncryption argBucketName ServerSideEncryptionAes256) id
    (env.PutBucketEncryption argBucketName ServerSideEncryptionAes256) s2

/-- Go `func (ss *awsS3StateStore) StoreOpen() (string, error)`. -/
def awsS3StateStore.StoreOpen {σ : Type} (env : Env σ) (ss : awsS3StateStore)
    (s : σ) : Res σ String :=
  (ss.bucketExists env s).andThen fun found s1 =>
  (if !found then ss.createBucket env s1 else Res.pure () s1).andThen fun _ s2 =>
  (ss.bucketIsAccessible env s2).andThen fun _ s3 =>
  let stateURI := "s3://" ++ ss.BucketName
  (callErr (.Setenv "PULUMI_CONFIG_PASSPHRASE" "we need a persistent token for the project here")
      id (env.Setenv "PULUMI_CONFIG_PASSPHRASE"
        "we need a persistent token for the project here") s3).andThen fun _ s4 =>
  match env.ParseRequestURI stateURI with
  | some err => ⟨.panic err, s4, []⟩
  | none =>
    (callErr (.Exec none "pulumi" ["login", stateURI]) id
        (env.Exec none "pulumi" ["login", stateURI]) s4).andThen fun _ s5 =>
    Res.pure stateURI s5

/-- Go `func (ss *awsS3StateStore) StoreClose() error`. -/
def awsS3StateStore.StoreClose {σ : Type} (env : Env σ) (ss : awsS3StateStore)
    (s : σ) : Res σ Unit :=
  (ss.bucketIsAccessible env s).andThen fun _ s1 =>
  let stateURI := "s3://" ++ ss.BucketName
  match env.ParseRequestURI stateURI with
  | some err => ⟨.panic err, s1, []⟩
  | none =>
    callErr (.Exec none "pulumi" ["logout", stateURI]) id
      (env.Exec none "pulumi" ["logout", stateURI]) s1

/-- The closure `deleteObject` of `deleteBucket`. -/
def deleteObject {σ : Type} (env : Env σ) (bucket key : String) (versionId : Option String)
    (s : σ) : Res σ Unit :=
  callErr (.DeleteObject bucket key versionId)
    (fun err => "error deleting object " ++ key ++ "/" ++ awsToString versionId ++ ": " ++ err)
    (env.DeleteObject bucket key versionId) s

/-- The loop `for _, item := range out.Contents` of `deleteBucket`. -/
def deleteContents {σ : Type} (env : Env σ) (bucket : String) :
    List Object → σ → Res σ Unit
  | [], s => Res.pure () s
  | item :: rest, s =>
    (deleteObject env bucket item.Key none s).andThen fun _ s1 =>
      deleteContents env bucket rest s1

/-- The loops `for _, item := range out.DeleteMarkers` and
`for _, item := range out.Versions` of `deleteBucket`. -/
def deleteVersions {σ : Type} (env : Env σ) (bucket : String) :
    List ObjectVersion → σ → Res σ Unit
  | [], s => Res.pure () s
  | item :: rest, s =>
    (deleteObject env bucket item.Key item.VersionId s).andThen fun _ s1 =>
      deleteVersions env bucket rest s1

/-- The first `for` loop of `deleteBucket`; `token` is
`argsListObjects.ContinuationToken` and each iteration uses one unit of the
budget. -/
def listObjectsLoop {σ : Type} (env : Env σ) (bucket : String) :
    Nat → Option String → σ → Res σ Unit
  | 0, _, s => ⟨.outOfFuel, s, []⟩
  | fuel + 1, token, s =>
    (callOut (.ListObjectsV2 bucket token) id (env.ListObjectsV2 bucket token) s).andThen
      fun out s1 =>
    (deleteContents env bucket out.Contents s1).andThen fun _ s2 =>
    if out.IsTruncated then listObjectsLoop env bucket fuel out.ContinuationToken s2
    else Res.pure () s2

/-- The second `for` loop of `deleteBucket`; the markers are
`argsListObjectVersions.KeyMarker` and `.VersionIdMarker`. -/
def listObjectVersionsLoop {σ : Type} (env : Env σ) (bucket : String) :
    Nat → Option String → Option String → σ → Res σ Unit
  | 0, _, _, s => ⟨.outOfFuel, s, []⟩
  | fuel + 1, keyMarker, versionIdMarker, s =>
    (callOut (.ListObjectVersions bucket keyMarker versionIdMarker)
        (fun err => "listObjectVersions failed to list versions: " ++ err)
        (env.ListObjectVersions bucket keyMarker versionIdMarker) s).andThen fun out s1 =>
    (deleteVersions env bucket out.DeleteMarkers s1).andThen fun _ s2 =>
    (deleteVersions env bucket out.Versions s2).andThen fun _ s3 =>
    if out.IsTruncated then
      listObjectVersionsLoop env bucket fuel out.NextKeyMarker out.NextVersionIdMarker s3
    else Res.pure () s3

/-- Go `func (ss *awsS3StateStore) deleteBucket(force bool) error`; each of the
two loops may run `fuel` iterations. -/
def awsS3StateStore.deleteBucket {σ : Type} (env : Env σ) (ss : awsS3StateStore)
    (fuel : Nat) (force : Bool) (s : σ) : Res σ Unit :=
  let argBucketName := ss.BucketName
  (if force then
      (listObjectsLoop env argBucketName fuel none s).andThen fun _ s1 =>
        listObjectVersionsLoop env argBucketName fuel none none s1
    else Res.pure () s).andThen fun _ s2 =>
  callErr (.DeleteBucket argBucketName) id (env.DeleteBucket argBucketName) s2

/-- Go `func (ss *awsS3StateStore) StoreDelete(force bool) error`. -/
def awsS3StateStore.StoreDelete {σ : Type} (env : Env σ) (ss : awsS3StateStore)
    (fuel : Nat) (force : Bool) (s : σ) : Res σ Unit :=
  (ss.StoreClose env s).andThen fun _ s1 =>
  ss.deleteBucket env fuel force s1

/-! ## Slash-separated paths (Go's `path` package)

The library functions `path.Clean` and `path.Join`, which the local store
applies to its paths and to its state URI.  The library scans the bytes of
the path with a write buffer; here the path is cut at its slashes and the
buffer is the list of the elements kept so far. -/

/-- The elements of a path: the runs between its slashes, empty runs
included. -/
def splitSlash : List Char → List (List Char)
  | [] => [[]]
  | c :: cs =>
    if c = '/' then [] :: splitSlash cs
    else
      match splitSlash cs with
      | [] => [[c]]
      | e :: es => (c :: e) :: es

/-- One element in the loop of `path.Clean`; `out` holds the kept elements,
newest first.  An empty element and `.` are skipped; `..` removes the newest
kept element when there is one that is not itself `..`, is dropped at the root
of a rooted path, and is kept otherwise; any other element is kept. -/
def cleanStep (rooted : Bool) (out : List (List Char)) (elem : List Char) :
    List (List Char) :=
  if elem = [] ∨ elem = ['.'] then out
  else if elem = ['.', '.'] then
    match out with
    | top :: below => if top = ['.', '.'] then elem :: out else below
    | [] => if rooted then [] else [elem]
  else elem :: out

/-- Go `path.Clean`. -/
def pathClean (path : String) : String :=
  if path = "" then "."
  else
    let rooted := path.data.head? = some '/'
    let out := (splitSlash path.data).foldl (cleanStep rooted) []
    let body := List.intercalate ['/'] out.reverse
    if rooted then String.mk ('/' :: body)
    else if body = [] then "."
    else String.mk body

/-- Go `path.Join`. -/
def pathJoinElems (elem : List String) : String :=
  if (elem.map String.length).sum = 0 then ""
  else
    pathClean (String.mk (elem.foldl
      (fun buf e =>
        if buf ≠ [] ∨ e ≠ "" then (if buf ≠ [] then buf ++ ['/'] else buf) ++ e.data
        else buf) []))

/-- Whether a string has two slashes in a row. -/
def hasDoubleSlash : List Char → Bool
  | [] => false
  | [_] => false
  | a :: b :: cs => (a == '/' && b == '/') || hasDoubleSlash (b :: cs)

/-! ## Local-filesystem state store (`statestore_default.go`) -/

/-- Go `type DefaultStateStore struct`. -/
structure DefaultStateStore where
  name : String
  path : String
  deriving DecidableEq

/-- Go `func GetDefaultStateStore(path, name string) (StateStore, error)`; the
error is always nil. -/
def GetDefaultStateStore (path name : String) : DefaultStateStore :=
  { name := if name = "" then ".statestore" else name,
    path := if path = "" then "." else path }

/-- Go `func (ss *DefaultStateStore) StoreDelete(force bool) error`. -/
def DefaultStateStore.StoreDelete {σ : Type} (env : Env σ) (ss : DefaultStateStore)
    (force : Bool) (s : σ) : Res σ Unit :=
  let statePath := env.pathJoin ss.path ss.name
  if force then callErr (.RemoveAll statePath) id (env.RemoveAll statePath) s
  else callErr (.Remove statePath) id (env.Remove statePath) s

/-- Go `os.ModePerm`. -/
def ModePerm : Nat := 0o777

/-- Go `func (ss *DefaultStateStore) StoreOpen() (string, error)`. -/
def DefaultStateStore.StoreOpen {σ : Type} (env : Env σ) (ss : DefaultStateStore)
    (s : σ) : Res σ String :=
  let statePath := env.pathJoin ss.path ss.name
  let absPath := env.filepathAbs statePath s
  let stateURI := "file://" ++ absPath
  (callErr (.MkdirAll statePath ModePerm) id (env.MkdirAll statePath ModePerm) s).andThen
    fun _ s1 =>
  (callErr (.Setenv "PULUMI_CONFIG_PASSPHRASE" "we need a persistent token for the project here")
      id (env.Setenv "PULUMI_CONFIG_PASSPHRASE"
        "we need a persistent token for the project here") s1).andThen fun _ s2 =>
  (callErr (.Exec (some (env.Getwd s2)) "pulumi" ["login", pathClean stateURI]) id
      (env.Exec (some (env.Getwd s2)) "pulumi" ["login", pathClean stateURI]) s2).andThen
    fun _ s3 =>
  Res.pure stateURI s3

/-! ## Recipes (`recipe_default.go`)

The interface type `Ingredient` is a type parameter; a method with a pointer
receiver that assigns a field returns the updated recipe. -/

/-- Go `type defaultRecipe struct`. -/
structure defaultRecipe (Ingredient : Type) where
  name : String
  ingredients : List Ingredient

/-- Go `func (dr *defaultRecipe) Append(ingredients ...Ingredient)`: the
variadic arguments arrive as a slice, and `append` puts them after the
recipe's slice. -/
def defaultRecipe.Append {Ingredient : Type} (dr : defaultRecipe Ingredient)
    (ingredients : List Ingredient) : defaultRecipe Ingredient :=
  { dr with ingredients := dr.ingredients ++ ingredients }

/-- Go `func (dr *defaultRecipe) Ingredients() []Ingredient`. -/
def defaultRecipe.Ingredients {Ingredient : Type} (dr : defaultRecipe Ingredient) :
    List Ingredient :=
  dr.ingredients

/-- Go `func (dr *defaultRecipe) Name() string`. -/
def defaultRecipe.Name {Ingredient : Type} (dr : defaultRecipe Ingredient) : String :=
  dr.name

/-- Go `func GetDefaultRecipe(name string) Recipe`. -/
def GetDefaultRecipe {Ingredient : Type} (name : String) : defaultRecipe Ingredient :=
  { name := name, ingredients := [] }

/-- A sequence of `Append` calls, one per argument list, oldest first. -/
def appendAll {Ingredient : Type} (dr : defaultRecipe Ingredient)
    (calls : List (List Ingredient)) : defaultRecipe Ingredient :=
  calls.foldl defaultRecipe.Append dr

/-! ## Trace predicates -/

/-- The error `deleteObject` returns for a recorded delete-object call that
failed; `none` for every other event. -/
def failedDeleteMessage (ev : Event) : Option GoError :=
  match ev.call, ev.err with
  | .DeleteObject _ key versionId, some err =>
    some ("error deleting object " ++ key ++ "/" ++ awsToString versionId ++ ": " ++ err)
  | _, _ => none

/-- A run either has no failed delete-object call, or its last call is the
only failed one and the run returned that call's error. -/
def StopsAtFailedDelete {σ α : Type} (r : Res σ α) : Prop :=
  (∀ ev ∈ r.events, failedDeleteMessage ev = none) ∨
  (∃ pre ev msg, r.events = pre ++ [ev] ∧ (∀ e ∈ pre, failedDeleteMessage e = none) ∧
    failedDeleteMessage ev = some msg ∧ r.out = .err msg)

/-! ## Sample collaborators and stores -/

/-- A stateless collaborator set on which every call succeeds: no bucket is
listed, both object listings are one empty page, every URI is valid.  Its
`pathJoin` puts a slash between its operands, which is what `path.Join` does
on a clean directory and a plain name; the working directory is the root. -/
def quietEnv : Env Unit where
  ListBuckets := fun s => (.ok [], s)
  HeadBucket := fun _ s => (none, s)
  CreateBucket := fun bucket _ s => (.ok ("/" ++ bucket), s)
  PutBucketTagging := fun _ _ s => (none, s)
  PutBucketEncryption := fun _ _ s => (none, s)
  ListObjectsV2 := fun _ token s => (.ok ⟨[], false, token, none⟩, s)
  ListObjectVersions := fun _ _ _ s => (.ok ⟨[], [], false, none, none⟩, s)
  DeleteObject := fun _ _ _ s => (none, s)
  DeleteBucket := fun _ s => (none, s)
  Setenv := fun _ _ s => (none, s)
  ParseRequestURI := fun _ => none
  Exec := fun _ _ _ s => (none, s)
  RemoveAll := fun _ s => (none, s)
  Remove := fun _ s => (none, s)
  pathJoin := fun dir name => dir ++ "/" ++ name
  MkdirAll := fun _ _ s => (none, s)
  filepathAbs := fun path _ => if path.data.head? = some '/' then path else "/" ++ path
  Getwd := fun _ => "/"

/-- The store of the end-to-end scenario: base name
`StateStoreName("My App!", AppEnvProduction)`, one tag. -/
def sampleStore : awsS3StateStore :=
  { baseName := StateStoreName sampleCaseRanges "My App!" AppEnvProduction,
    bucketRegion := "eu-central-1",
    bucketTags := [("team", "ccoe")] }

/-- A listing of two pages, `a` then `b`, served by continuation token alone
(deletes do not change it): the first page answers the request without token,
is truncated and names `page-2` as next token; the second answers the request
with token `page-2`.  Each response repeats the token of
its request in `ContinuationToken`.  There are no versions or delete markers. -/
def twoPageEnv : Env Unit :=
  { quietEnv with
    ListObjectsV2 := fun _ token s =>
      match token with
      | none => (.ok ⟨[⟨"a"⟩], true, none, some "page-2"⟩, s)
      | some t => (.ok ⟨[⟨"b"⟩], false, some t, none⟩, s) }

/-- A bucket with current object `a` and, on one page of the version listing,
delete marker `a`/`v2` and version `a`/`v1`; deleting `a`/`v1` fails. -/
def failingDeleteEnv : Env Unit :=
  { quietEnv with
    ListObjectsV2 := fun _ token s => (.ok ⟨[⟨"a"⟩], false, token, none⟩, s)
    ListObjectVersions := fun _ _ _ s =>
      (.ok ⟨[⟨"a", some "v2"⟩], [⟨"a", some "v1"⟩, ⟨"b", some "v1"⟩], false, none, none⟩, s)
    DeleteObject := fun _ key versionId s =>
      if key = "a" ∧ versionId = some "v1" then (some "AccessDenied", s) else (none, s) }

/-- The account already has the bucket of `sampleStore`. -/
def existingBucketEnv : Env Unit :=
  { quietEnv with ListBuckets := fun s => (.ok ["other", "my-app-prd-state"], s) }

/-- The bucket is absent: the accessibility probe reports not-found; the
engine's logout would succeed. -/
def absentBucketEnv : Env Unit :=
  { quietEnv with HeadBucket := fun _ s => (some "NotFound: Not Found", s) }

/-- A local store under `/var/state`. -/
def sampleLocalStore : DefaultStateStore := GetDefaultStateStore "/var/state" "store"

/-- A process on a Unix system with working directory `/work`: `path.Join` is
the library's, `filepath.Abs` cleans an absolute path and joins a relative
one to the working directory; every call succeeds. -/
def workEnv : Env Unit :=
  { quietEnv with
    pathJoin := fun dir name => pathJoinElems [dir, name]
    filepathAbs := fun path _ =>
      if path.data.head? = some '/' then pathClean path else pathJoinElems ["/work", path]
    Getwd := fun _ => "/work" }

/-- The `os.Getenv` of a process without `AWS_DEFAULT_REGION`. -/
def sampleGetenv (_ : String) : String := ""

/-- The marker that names page `i` of a version listing: none for the first
page, a string of `i` letters for page `i`. -/
def pageMarker : Nat → Option String
  | 0 => none
  | i + 1 => some (String.mk (List.replicate (i + 1) 'x'))

/-- The page a marker names. -/
def markerIndex : Option String → Nat
  | none => 0
  | some m => m.length

/-- A bucket whose current-object listing is the single page `contents` and
whose version listing is served, by key marker, as the pages `pages` (delete
markers and versions of each page); a page is truncated exactly when another
page follows, and names the markers of the page that follows.  Every call
succeeds. -/
def pagedEnv (contents : List Object)
    (pages : List (List ObjectVersion × List ObjectVersion)) : Env Unit :=
  { quietEnv with
    ListObjectsV2 := fun _ token s => (.ok ⟨contents, false, token, none⟩, s)
    ListObjectVersions := fun _ keyMarker _ s =>
      match pages.drop (markerIndex keyMarker) with
      | [] => (.ok ⟨[], [], false, none, none⟩, s)
      | page :: rest =>
        (.ok ⟨page.1, page.2, !rest.isEmpty, pageMarker (markerIndex keyMarker + 1),
          pageMarker (markerIndex keyMarker + 1)⟩, s) }

/-- The successful delete-object event of a listed version or delete marker. -/
def deleteEvent (bucket : String) (item : ObjectVersion) : Event :=
  ⟨.DeleteObject bucket item.Key item.VersionId, none⟩

/-- The calls the version loop is to make on the pages from page `i` on: per
page the listing request with that page's markers, then one delete per delete
marker, then one delete per version. -/
def pagedVersionEvents (bucket : String) :
    Nat → List (List ObjectVersion × List ObjectVersion) → List Event
  | _, [] => []
  | i, page :: rest =>
    [⟨.ListObjectVersions bucket (pageMarker i) (pageMarker i), none⟩] ++
      page.1.map (deleteEvent bucket) ++ page.2.map (deleteEvent bucket) ++
      pagedVersionEvents bucket (i + 1) rest

/-- Whether an event is a delete-object call. -/
def isDeleteObject (ev : Event) : Bool :=
  match ev.call with
  | .DeleteObject _ _ _ => true
  | _ => false

/-- The continuation token of a list-objects request; `none` for every other
call.  (A request without token has token `none`, so the result is
`some none` for it.) -/
def listRequestToken (ev : Event) : Option (Option String) :=
  match ev.call with
  | .ListObjectsV2 _ token => some token
  | _ => none

/-! ## A bucket that applies its deletes

A collaborator whose listings change as objects are deleted: the model of the
object storage behind the forced purge. -/

/-- One entry of a bucket's version listing: a stored version, or a delete
marker.  The service fills the version id of every listed entry. -/
structure VersionEntry where
  Key : String
  VersionId : String
  IsDeleteMarker : Bool
  deriving DecidableEq

/-- The key and version id that identify an entry. -/
def VersionEntry.pair (e : VersionEntry) : String × String := (e.Key, e.VersionId)

/-- An entry as the version listing returns it. -/
def VersionEntry.listed (e : VersionEntry) : ObjectVersion := ⟨e.Key, some e.VersionId⟩

/-- The state of a bucket: the keys its current-object listing shows, in
listing order; the entries of its version listing, in listing order; and the
key and version pairs that were deleted for good, which the version listing
no longer shows. -/
structure Bucket where
  current : List String
  history : List VersionEntry
  purged : List (String × String)
  deriving DecidableEq

/-- The entries of a version listing that follow the markers of a request:
all of them without key marker; those after the marked entry with both
markers; those after the versions of the marked key with a key marker only. -/
def versionsAfter (history : List VersionEntry) :
    Option String → Option String → List VersionEntry
  | none, _ => history
  | some k, some v => (history.dropWhile fun e => e.pair != (k, v)).drop 1
  | some k, none => (history.dropWhile fun e => e.Key != k).dropWhile fun e => e.Key == k

/-- The object storage as a machine over a bucket.

* The current-object listing answers a request without token with the first
  page of the keys the bucket now has, and a request with a token with the
  first page of the keys after that token; a page has at most
  `objectsPerPage + 1` keys, is truncated when more keys remain, repeats the
  token of the request and names its last key as the token of the next page.
* The version listing answers with the first page, of at most
  `versionsPerPage + 1` entries, of the entries that follow the markers and
  are not deleted, delete markers and versions apart; a truncated page names
  its last entry as the next markers.
* A delete by key alone takes the key out of the current-object listing and
  leaves in the version listing what `afterDelete` says (a bucket with
  versioning gains a delete marker, one without loses the object's entry).
* A delete by key and version removes that entry for good.

Every call succeeds; the calls other than these change nothing. -/
def bucketEnv (objectsPerPage versionsPerPage : Nat)
    (afterDelete : String → List VersionEntry → List VersionEntry) : Env Bucket where
  ListBuckets := fun b => (.ok [], b)
  HeadBucket := fun _ b => (none, b)
  CreateBucket := fun bucket _ b => (.ok ("/" ++ bucket), b)
  PutBucketTagging := fun _ _ b => (none, b)
  PutBucketEncryption := fun _ _ b => (none, b)
  ListObjectsV2 := fun _ token b =>
    let rest :=
      match token with
      | none => b.current
      | some t => b.current.filter fun k => decide (t < k)
    let page := rest.take (objectsPerPage + 1)
    let truncated := decide (objectsPerPage + 1 < rest.length)
    (.ok ⟨page.map Object.mk, truncated, token,
      if truncated then page.getLast? else none⟩, b)
  ListObjectVersions := fun _ keyMarker versionIdMarker b =>
    let rest := (versionsAfter b.history keyMarker versionIdMarker).filter
      fun e => decide (e.pair ∉ b.purged)
    let page := rest.take (versionsPerPage + 1)
    let truncated := decide (versionsPerPage + 1 < rest.length)
    (.ok ⟨(page.filter fun e => e.IsDeleteMarker).map VersionEntry.listed,
      (page.filter fun e => !e.IsDeleteMarker).map VersionEntry.listed, truncated,
      if truncated then page.getLast?.map VersionEntry.Key else none,
      if truncated then page.getLast?.map VersionEntry.VersionId else none⟩, b)
  DeleteObject := fun _ key versionId b =>
    match versionId with
    | none =>
      (none, { b with current := b.current.erase key, history := afterDelete key b.history })
    | some v => (none, { b with purged := (key, v) :: b.purged })
  DeleteBucket := fun _ b => (none, b)
  Setenv := fun _ _ b => (none, b)
  ParseRequestURI := fun _ => none
  Exec := fun _ _ _ b => (none, b)
  RemoveAll := fun _ b => (none, b)
  Remove := fun _ b => (none, b)
  pathJoin := fun dir name => pathJoinElems [dir, name]
  MkdirAll := fun _ _ b => (none, b)
  filepathAbs := fun path _ => if path.data.head? = some '/' then pathClean path else "/" ++ path
  Getwd := fun _ => "/"

/-- The version listing of a bucket once its current objects are deleted by
key, in listing order. -/
def historyAfterCurrent (afterDelete : String → List VersionEntry → List VersionEntry)
    (b : Bucket) : List VersionEntry :=
  b.current.foldl (fun history key => afterDelete key history) b.history

/-- A bucket with versioning: a delete by key leaves a delete marker, listed
first, whose version id is `d` followed by the key. -/
def leaveDeleteMarker (key : String) (history : List VersionEntry) : List VersionEntry :=
  ⟨key, "d" ++ key, true⟩ :: history

/-- A bucket with versioning that holds current objects `a`, `b`, `c`, each
with its stored version, an older version of `a`, and a delete marker with the
version below it for a key `z` deleted earlier. -/
def sampleBucket : Bucket :=
  { current := ["a", "b", "c"],
    history := [⟨"a", "v2", false⟩, ⟨"a", "v1", false⟩, ⟨"b", "v1", false⟩,
      ⟨"c", "v1", false⟩, ⟨"z", "m1", true⟩, ⟨"z", "v1", false⟩],
    purged := [] }

/-! ## Theorems -/

theorem toNat_ofNat_small (n : Nat) (h : n < 0xD800) : (Char.ofNat n).toNat = n := by
  have hv : n.isValidChar := Or.inl h
  simp [Char.ofNat, hv, Char.ofNatAux, Char.toNat, UInt32.toNat]

theorem char_eq_of_toNat_eq {c d : Char} (h : c.toNat = d.toNat) : c = d := by
  rw [← Char.ofNat_toNat c, ← Char.ofNat_toNat d, h]

theorem unicodeToLower_not_upper (caseRanges : Char → Char)
    (h : NoUpperFromTable caseRanges) (r : Char) :
    ¬ ('A'.toNat ≤ (unicodeToLower caseRanges r).toNat ∧
        (unicodeToLower caseRanges r).toNat ≤ 'Z'.toNat) := by
  unfold unicodeToLower
  split_ifs with h1 h2
  · have hlt : r.toNat + ('a'.toNat - 'A'.toNat) < 0xD800 := by
      simp at h1 h2 ⊢
      omega
    rw [toNat_ofNat_small _ hlt]
    simp at h2 ⊢
    omega
  · exact h2
  · exact h r (by omega)

theorem unicodeToLower_fixed (caseRanges : Char → Char) (c : Char)
    (h : lowerAlnumHyphenDot c) : unicodeToLower caseRanges c = c := by
  unfold unicodeToLower
  have hc : c.toNat ≤ 0x7F ∧ ¬ ('A'.toNat ≤ c.toNat ∧ c.toNat ≤ 'Z'.toNat) := by
    rcases h with (h | h | h) | h
    · simp at h ⊢; omega
    · simp at h ⊢; omega
    · subst h; decide
    · subst h; decide
  rw [if_pos hc.1, if_neg hc.2]

theorem classAlnumHyphen_lower {c : Char} (hc : classAlnumHyphen c = true)
    (hu : ¬ ('A'.toNat ≤ c.toNat ∧ c.toNat ≤ 'Z'.toNat)) : lowerAlnumHyphen c := by
  unfold classAlnumHyphen at hc
  unfold lowerAlnumHyphen
  simp only [Bool.or_eq_true, Bool.and_eq_true, decide_eq_true_eq, beq_iff_eq] at hc
  rcases hc with ((h | h) | h) | h
  · exact Or.inl h
  · exact absurd h hu
  · exact Or.inr (Or.inl h)
  · exact Or.inr (Or.inr (char_eq_of_toNat_eq h))

theorem classAlnumHyphenDot_lower {c : Char} (hc : classAlnumHyphenDot c = true)
    (hu : ¬ ('A'.toNat ≤ c.toNat ∧ c.toNat ≤ 'Z'.toNat)) : lowerAlnumHyphenDot c := by
  unfold classAlnumHyphenDot at hc
  unfold lowerAlnumHyphenDot lowerAlnumHyphen
  simp only [Bool.or_eq_true, Bool.and_eq_true, decide_eq_true_eq, beq_iff_eq] at hc
  rcases hc with (((h | h) | h) | h) | h
  · exact Or.inl (Or.inl h)
  · exact absurd h hu
  · exact Or.inl (Or.inr (Or.inl h))
  · exact Or.inl (Or.inr (Or.inr (char_eq_of_toNat_eq h)))
  · exact Or.inr (char_eq_of_toNat_eq h)

theorem lower_classAlnumHyphen {c : Char} (h : lowerAlnumHyphen c) :
    classAlnumHyphen c = true := by
  unfold classAlnumHyphen
  simp only [Bool.or_eq_true, Bool.and_eq_true, decide_eq_true_eq, beq_iff_eq]
  rcases h with h | h | h
  · exact Or.inl (Or.inl (Or.inl h))
  · exact Or.inl (Or.inr h)
  · exact Or.inr (by rw [h])

theorem lower_classAlnumHyphenDot {c : Char} (h : lowerAlnumHyphenDot c) :
    classAlnumHyphenDot c = true := by
  unfold classAlnumHyphenDot
  simp only [Bool.or_eq_true, Bool.and_eq_true, decide_eq_true_eq, beq_iff_eq]
  rcases h with (h | h | h) | h
  · exact Or.inl (Or.inl (Or.inl (Or.inl h)))
  · exact Or.inl (Or.inl (Or.inr h))
  · exact Or.inl (Or.inr (by rw [h]))
  · exact Or.inr (by rw [h])

theorem lower_ne_space {c : Char} (h : lowerAlnumHyphenDot c) : c ≠ ' ' := by
  rintro rfl
  revert h
  unfold lowerAlnumHyphenDot lowerAlnumHyphen
  decide

/-- Every rune that `Application.ID` lets through is in `[a-z0-9-]`. -/
theorem Application_ID_chars (caseRanges : Char → Char) (h : NoUpperFromTable caseRanges)
    (x : String) : ∀ c ∈ (Application.ID caseRanges x).data, lowerAlnumHyphen c := by
  intro c hc
  simp only [Application.ID, replaceAllOutsideClass, stringsToLower, List.mem_filter,
    List.mem_map] at hc
  obtain ⟨⟨r, _, rfl⟩, hcls⟩ := hc
  exact classAlnumHyphen_lower hcls (unicodeToLower_not_upper caseRanges h r)

/-- Every rune that `SanitizeForID` lets through is in `[a-z0-9-.]`. -/
theorem SanitizeForID_chars (caseRanges : Char → Char) (h : NoUpperFromTable caseRanges)
    (x : String) : ∀ c ∈ (SanitizeForID caseRanges x).data, lowerAlnumHyphenDot c := by
  intro c hc
  simp only [SanitizeForID, replaceAllOutsideClass, stringsToLower, List.mem_filter,
    List.mem_map] at hc
  obtain ⟨⟨r, _, rfl⟩, hcls⟩ := hc
  exact classAlnumHyphenDot_lower hcls (unicodeToLower_not_upper caseRanges h r)

/-- A string of runes in `[a-z0-9-.]` passes the first two steps of both
sanitizers unchanged. -/
theorem lower_steps_fixed (caseRanges : Char → Char) (l : List Char)
    (hl : ∀ c ∈ l, lowerAlnumHyphenDot c) :
    stringsToLower caseRanges (replaceAllChar ' ' '-' l) = l := by
  unfold stringsToLower replaceAllChar
  rw [List.map_map]
  conv_rhs => rw [← List.map_id l]
  apply List.map_congr_left
  intro c hc
  simp only [Function.comp_apply, id_eq]
  rw [if_neg (lower_ne_space (hl c hc))]
  exact unicodeToLower_fixed caseRanges c (hl c hc)

/-- The function `Application.ID` leaves a string of runes in `[a-z0-9-]` unchanged. -/
theorem Application_ID_fixed (caseRanges : Char → Char) (s : String)
    (hs : ∀ c ∈ s.data, lowerAlnumHyphen c) : Application.ID caseRanges s = s := by
  unfold Application.ID
  simp only
  rw [lower_steps_fixed caseRanges s.data (fun c hc => Or.inl (hs c hc))]
  unfold replaceAllOutsideClass
  rw [List.filter_eq_self.mpr (fun c hc => lower_classAlnumHyphen (hs c hc))]

/-- The function `SanitizeForID` leaves a string of runes in `[a-z0-9-.]` unchanged. -/
theorem SanitizeForID_fixed (caseRanges : Char → Char) (s : String)
    (hs : ∀ c ∈ s.data, lowerAlnumHyphenDot c) : SanitizeForID caseRanges s = s := by
  unfold SanitizeForID
  simp only
  rw [lower_steps_fixed caseRanges s.data hs]
  unfold replaceAllOutsideClass
  rw [List.filter_eq_self.mpr (fun c hc => lower_classAlnumHyphenDot (hs c hc))]

theorem sampleCaseRanges_noUpper : NoUpperFromTable sampleCaseRanges := by
  intro r hr
  unfold sampleCaseRanges
  split_ifs with h1 h2
  · decide
  · decide
  · simp
    omega

/-- C8: for every input string, every character of `Application.ID`'s output is
in `[a-z0-9-]` and every character of `SanitizeForID`'s output is in
`[a-z0-9-.]`, the library's case table never lower-casing a rune above ASCII
to an ASCII upper-case letter. -/
theorem sanitize_output_in_permitted_class (caseRanges : Char → Char)
    (h : NoUpperFromTable caseRanges) (x : String) :
    (∀ c ∈ (Application.ID caseRanges x).data, lowerAlnumHyphen c) ∧
    (∀ c ∈ (SanitizeForID caseRanges x).data, lowerAlnumHyphenDot c) :=
  ⟨Application_ID_chars caseRanges h x, SanitizeForID_chars caseRanges h x⟩

/-- Witness of C8 on a string with upper case, spaces, punctuation and runes
above ASCII (U+212A lower-cases to `k`). -/
theorem sanitize_output_in_permitted_class_witness :
    NoUpperFromTable sampleCaseRanges ∧
    Application.ID sampleCaseRanges "My App.v2 Ké!" = "my-appv2-k" ∧
    SanitizeForID sampleCaseRanges "My App.v2 Ké!" = "my-app.v2-k" ∧
    ((∀ c ∈ (Application.ID sampleCaseRanges "My App.v2 Ké!").data,
        lowerAlnumHyphen c) ∧
     (∀ c ∈ (SanitizeForID sampleCaseRanges "My App.v2 Ké!").data,
        lowerAlnumHyphenDot c)) :=
  ⟨sampleCaseRanges_noUpper, by decide, by decide,
    sanitize_output_in_permitted_class sampleCaseRanges sampleCaseRanges_noUpper _⟩

/-- C9: sanitization is idempotent, for `Application.ID` and for
`SanitizeForID`, the library's case table never lower-casing a rune above
ASCII to an ASCII upper-case letter. -/
theorem sanitize_idempotent (caseRanges : Char → Char)
    (h : NoUpperFromTable caseRanges) (x : String) :
    Application.ID caseRanges (Application.ID caseRanges x) = Application.ID caseRanges x ∧
    SanitizeForID caseRanges (SanitizeForID caseRanges x) = SanitizeForID caseRanges x :=
  ⟨Application_ID_fixed caseRanges _ (Application_ID_chars caseRanges h x),
   SanitizeForID_fixed caseRanges _ (SanitizeForID_chars caseRanges h x)⟩

/-- Witness of C9 on a string that the first pass really changes. -/
theorem sanitize_idempotent_witness :
    NoUpperFromTable sampleCaseRanges ∧
    Application.ID sampleCaseRanges "My App.v2 K!" ≠ "My App.v2 K!" ∧
    (Application.ID sampleCaseRanges (Application.ID sampleCaseRanges "My App.v2 K!")
        = Application.ID sampleCaseRanges "My App.v2 K!" ∧
     SanitizeForID sampleCaseRanges (SanitizeForID sampleCaseRanges "My App.v2 K!")
        = SanitizeForID sampleCaseRanges "My App.v2 K!") :=
  ⟨sampleCaseRanges_noUpper, by decide,
    sanitize_idempotent sampleCaseRanges sampleCaseRanges_noUpper _⟩

/-- C10: `StateStoreName(app, env)` is `app.ID() + "-" + code` with code `sbx`,
`dev`, `int`, `prd` for the environments 0, 1, 2, 3 and `etc` for every other
value; the function is total. -/
theorem StateStoreName_codes (caseRanges : Char → Char) (app : Application)
    (env : ApplicationEnvironment) :
    StateStoreName caseRanges app env =
      Application.ID caseRanges app ++ "-" ++
        (if env = 0 then "sbx" else if env = 1 then "dev" else if env = 2 then "int"
         else if env = 3 then "prd" else "etc") ∧
    StateStoreName caseRanges app AppEnvSandbox = Application.ID caseRanges app ++ "-" ++ "sbx" ∧
    StateStoreName caseRanges app AppEnvDevelopment = Application.ID caseRanges app ++ "-" ++ "dev" ∧
    StateStoreName caseRanges app AppEnvIntegration = Application.ID caseRanges app ++ "-" ++ "int" ∧
    StateStoreName caseRanges app AppEnvProduction = Application.ID caseRanges app ++ "-" ++ "prd" ∧
    (3 < env → StateStoreName caseRanges app env = Application.ID caseRanges app ++ "-" ++ "etc") := by
  refine ⟨rfl, rfl, rfl, rfl, rfl, ?_⟩
  intro h3
  unfold StateStoreName ApplicationEnvironment.ID AppEnvSandbox AppEnvDevelopment
    AppEnvIntegration AppEnvProduction
  have e0 : ¬ env = 0 := fun h => by subst h; exact absurd h3 (by decide)
  have e1 : ¬ env = 1 := fun h => by subst h; exact absurd h3 (by decide)
  have e2 : ¬ env = 2 := fun h => by subst h; exact absurd h3 (by decide)
  have e3 : ¬ env = 3 := fun h => by subst h; exact absurd h3 (by decide)
  rw [if_neg e0, if_neg e1, if_neg e2, if_neg e3]

/-- Witness of C10 at an unknown environment value. -/
theorem StateStoreName_codes_witness :
    StateStoreName sampleCaseRanges "My App!" 7 = "my-app-etc" ∧
    StateStoreName sampleCaseRanges "My App!" 7 =
      Application.ID sampleCaseRanges "My App!" ++ "-" ++ "etc" :=
  ⟨by decide, (StateStoreName_codes sampleCaseRanges "My App!" 7).2.2.2.2.2 (by decide)⟩

/-! ### Sequencing lemmas -/

theorem Res.andThen_ok {σ α β : Type} (r : Res σ α) (f : α → σ → Res σ β) (a : α)
    (h : r.out = .ok a) :
    r.andThen f = ⟨(f a r.st).out, (f a r.st).st, r.events ++ (f a r.st).events⟩ := by
  unfold Res.andThen
  rw [h]

theorem Res.andThen_err {σ α β : Type} (r : Res σ α) (f : α → σ → Res σ β) (e : GoError)
    (h : r.out = .err e) : r.andThen f = ⟨.err e, r.st, r.events⟩ := by
  unfold Res.andThen
  rw [h]

theorem Res.andThen_events_prefix {σ α β : Type} (r : Res σ α) (f : α → σ → Res σ β) :
    r.events <+: (r.andThen f).events := by
  unfold Res.andThen
  cases r.out <;> simp

/-! ### The first loop on a listing served by token alone -/

theorem listObjectsLoop_twoPageEnv (bucket : String) (fuel : Nat) :
    (listObjectsLoop twoPageEnv bucket fuel none ()).out = .outOfFuel ∧
    (listObjectsLoop twoPageEnv bucket fuel none ()).events =
      (List.replicate fuel
        [(⟨.ListObjectsV2 bucket none, none⟩ : Event),
         ⟨.DeleteObject bucket "a" none, none⟩]).flatten := by
  induction fuel with
  | zero => exact ⟨rfl, rfl⟩
  | succ n ih =>
    simp only [listObjectsLoop, callOut, twoPageEnv, quietEnv, Res.andThen, deleteContents,
      deleteObject, callErr, Res.pure, List.replicate_succ, List.flatten_cons]
    simp only [listObjectsLoop, callOut, twoPageEnv, quietEnv, Res.andThen, deleteContents,
      deleteObject, callErr, Res.pure] at ih
    simp [ih.1, ih.2]

/-! ### A failed delete-object call ends the purge -/

theorem stops_pure {σ α : Type} (a : α) (s : σ) : StopsAtFailedDelete (Res.pure a s) :=
  Or.inl (by simp [Res.pure])

theorem stops_outOfFuel {σ α : Type} (s : σ) :
    StopsAtFailedDelete (⟨.outOfFuel, s, []⟩ : Res σ α) :=
  Or.inl (by simp)

theorem stops_andThen {σ α β : Type} (r : Res σ α) (f : α → σ → Res σ β)
    (hr : StopsAtFailedDelete r) (hf : ∀ a s, StopsAtFailedDelete (f a s)) :
    StopsAtFailedDelete (r.andThen f) := by
  cases hout : r.out with
  | ok a =>
    rw [Res.andThen_ok r f a hout]
    have hclean : ∀ ev ∈ r.events, failedDeleteMessage ev = none := by
      rcases hr with h | ⟨_, _, _, _, _, _, h⟩
      · exact h
      · rw [hout] at h; cases h
    rcases hf a r.st with h | ⟨pre, ev, msg, h1, h2, h3, h4⟩
    · left
      intro ev hev
      rcases List.mem_append.mp hev with h' | h'
      · exact hclean ev h'
      · exact h ev h'
    · right
      refine ⟨r.events ++ pre, ev, msg, ?_, ?_, h3, h4⟩
      · simp only [h1, List.append_assoc]
      · intro e he
        rcases List.mem_append.mp he with h' | h'
        · exact hclean e h'
        · exact h2 e h'
  | err e =>
    rw [Res.andThen_err r f e hout]
    rcases hr with h | ⟨pre, ev, msg, h1, h2, h3, h4⟩
    · exact Or.inl h
    · have hem : e = msg := by
        rw [hout] at h4
        exact Outcome.err.inj h4
      exact Or.inr ⟨pre, ev, msg, h1, h2, h3, by rw [hem]⟩
  | panic v =>
    have e : r.andThen f = ⟨.panic v, r.st, r.events⟩ := by
      unfold Res.andThen; rw [hout]
    rw [e]
    rcases hr with h | ⟨_, _, _, _, _, _, h⟩
    · exact Or.inl h
    · rw [hout] at h; cases h
  | outOfFuel =>
    have e : r.andThen f = ⟨.outOfFuel, r.st, r.events⟩ := by
      unfold Res.andThen; rw [hout]
    rw [e]
    rcases hr with h | ⟨_, _, _, _, _, _, h⟩
    · exact Or.inl h
    · rw [hout] at h; cases h

theorem stops_callOut {σ α : Type} (c : Call) (wrap : GoError → GoError)
    (op : σ → Except GoError α × σ) (s : σ)
    (hc : ∀ err, failedDeleteMessage ⟨c, err⟩ = none) :
    StopsAtFailedDelete (callOut c wrap op s) := by
  left
  unfold callOut
  cases (op s).1 <;> simp [hc]

theorem stops_callErr {σ : Type} (c : Call) (wrap : GoError → GoError)
    (op : σ → Option GoError × σ) (s : σ)
    (hc : ∀ err, failedDeleteMessage ⟨c, err⟩ = none) :
    StopsAtFailedDelete (callErr c wrap op s) := by
  left
  unfold callErr
  cases (op s).1 <;> simp [hc]

theorem stops_deleteObject {σ : Type} (env : Env σ) (bucket key : String)
    (versionId : Option String) (s : σ) :
    StopsAtFailedDelete (deleteObject env bucket key versionId s) := by
  unfold deleteObject callErr
  cases h : (env.DeleteObject bucket key versionId s).1 with
  | none => exact Or.inl (by simp [failedDeleteMessage])
  | some e =>
    right
    exact ⟨[], ⟨.DeleteObject bucket key versionId, some e⟩, _, rfl, by simp, rfl, rfl⟩

theorem stops_deleteContents {σ : Type} (env : Env σ) (bucket : String)
    (items : List Object) (s : σ) :
    StopsAtFailedDelete (deleteContents env bucket items s) := by
  induction items generalizing s with
  | nil => exact stops_pure () s
  | cons item rest ih =>
    exact stops_andThen _ _ (stops_deleteObject env bucket item.Key none s) (fun _ s1 => ih s1)

theorem stops_deleteVersions {σ : Type} (env : Env σ) (bucket : String)
    (items : List ObjectVersion) (s : σ) :
    StopsAtFailedDelete (deleteVersions env bucket items s) := by
  induction items generalizing s with
  | nil => exact stops_pure () s
  | cons item rest ih =>
    exact stops_andThen _ _ (stops_deleteObject env bucket item.Key item.VersionId s)
      (fun _ s1 => ih s1)

theorem stops_listObjectsLoop {σ : Type} (env : Env σ) (bucket : String) (fuel : Nat)
    (token : Option String) (s : σ) :
    StopsAtFailedDelete (listObjectsLoop env bucket fuel token s) := by
  induction fuel generalizing token s with
  | zero => exact stops_outOfFuel s
  | succ n ih =>
    unfold listObjectsLoop
    refine stops_andThen _ _ (stops_callOut _ _ _ _ (fun _ => rfl)) (fun out s1 => ?_)
    refine stops_andThen _ _ (stops_deleteContents env bucket out.Contents s1) (fun _ s2 => ?_)
    split
    · exact ih _ s2
    · exact stops_pure () s2

theorem stops_listObjectVersionsLoop {σ : Type} (env : Env σ) (bucket : String) (fuel : Nat)
    (keyMarker versionIdMarker : Option String) (s : σ) :
    StopsAtFailedDelete
      (listObjectVersionsLoop env bucket fuel keyMarker versionIdMarker s) := by
  induction fuel generalizing keyMarker versionIdMarker s with
  | zero => exact stops_outOfFuel s
  | succ n ih =>
    unfold listObjectVersionsLoop
    refine stops_andThen _ _ (stops_callOut _ _ _ _ (fun _ => rfl)) (fun out s1 => ?_)
    refine stops_andThen _ _ (stops_deleteVersions env bucket out.DeleteMarkers s1)
      (fun _ s2 => ?_)
    refine stops_andThen _ _ (stops_deleteVersions env bucket out.Versions s2) (fun _ s3 => ?_)
    split
    · exact ih _ _ s3
    · exact stops_pure () s3

theorem stops_deleteBucket {σ : Type} (env : Env σ) (ss : awsS3StateStore) (fuel : Nat)
    (force : Bool) (s : σ) : StopsAtFailedDelete (ss.deleteBucket env fuel force s) := by
  unfold awsS3StateStore.deleteBucket
  refine stops_andThen _ _ ?_ (fun _ s2 => stops_callErr _ _ _ _ (fun _ => rfl))
  split
  · exact stops_andThen _ _ (stops_listObjectsLoop env _ fuel none s)
      (fun _ s1 => stops_listObjectVersionsLoop env _ fuel none none s1)
  · exact stops_pure () s

/-- In a run that stops at a failed delete-object call, a failed
delete-object call found anywhere in the trace is its last event and its
error is the one returned. -/
theorem stops_last {σ α : Type} (r : Res σ α) (hr : StopsAtFailedDelete r)
    (pre post : List Event) (ev : Event) (msg : GoError)
    (hev : r.events = pre ++ ev :: post) (hmsg : failedDeleteMessage ev = some msg) :
    post = [] ∧ r.out = .err msg := by
  rcases hr with h | ⟨pre', ev', msg', h1, h2, h3, h4⟩
  · have := h ev (by rw [hev]; simp)
    rw [hmsg] at this
    cases this
  · rw [hev] at h1
    rcases List.eq_nil_or_concat post with hp | ⟨init, last, hp⟩
    · subst hp
      have := List.append_inj' h1 rfl
      have hee : ev = ev' := by simpa using this.2
      subst hee
      rw [hmsg] at h3
      cases h3
      exact ⟨rfl, h4⟩
    · subst hp
      have h1' : (pre ++ ev :: init) ++ [last] = pre' ++ [ev'] := by simpa using h1
      have := List.append_inj' h1' rfl
      have hmem : ev ∈ pre' := by rw [← this.1]; simp
      have := h2 ev hmem
      rw [hmsg] at this
      cases this

/-! ### The iteration budget does not matter once a run has ended -/

theorem Res.andThen_congr {σ α β : Type} (r : Res σ α) (f g : α → σ → Res σ β)
    (h : ∀ a, r.out = .ok a → f a r.st = g a r.st) : r.andThen f = r.andThen g := by
  cases hout : r.out with
  | ok a => rw [Res.andThen_ok r f a hout, Res.andThen_ok r g a hout, h a hout]
  | err e => rw [Res.andThen_err r f e hout, Res.andThen_err r g e hout]
  | panic v => unfold Res.andThen; rw [hout]
  | outOfFuel => unfold Res.andThen; rw [hout]

theorem Res.andThen_out_ok {σ α β : Type} (r : Res σ α) (f : α → σ → Res σ β) (a : α)
    (h : r.out = .ok a) : (r.andThen f).out = (f a r.st).out := by
  rw [Res.andThen_ok r f a h]

theorem listObjectsLoop_succ {σ : Type} (env : Env σ) (bucket : String) (fuel : Nat)
    (token : Option String) (s : σ)
    (h : (listObjectsLoop env bucket fuel token s).out ≠ .outOfFuel) :
    listObjectsLoop env bucket (fuel + 1) token s = listObjectsLoop env bucket fuel token s := by
  induction fuel generalizing token s with
  | zero => exact absurd rfl h
  | succ n ih =>
    rw [listObjectsLoop] at h
    rw [listObjectsLoop, listObjectsLoop]
    apply Res.andThen_congr
    intro out hout
    rw [Res.andThen_out_ok _ _ out hout] at h
    apply Res.andThen_congr
    intro u hu
    rw [Res.andThen_out_ok _ _ u hu] at h
    by_cases ht : out.IsTruncated = true
    · simp only [ht, if_true] at h ⊢
      exact ih _ _ h
    · rw [if_neg ht, if_neg ht]

theorem listObjectsLoop_add {σ : Type} (env : Env σ) (bucket : String) (fuel k : Nat)
    (token : Option String) (s : σ)
    (h : (listObjectsLoop env bucket fuel token s).out ≠ .outOfFuel) :
    listObjectsLoop env bucket (fuel + k) token s = listObjectsLoop env bucket fuel token s := by
  induction k with
  | zero => rfl
  | succ k ih =>
    rw [← Nat.add_assoc, listObjectsLoop_succ env bucket (fuel + k) token s (by rw [ih]; exact h)]
    exact ih

theorem listObjectVersionsLoop_succ {σ : Type} (env : Env σ) (bucket : String) (fuel : Nat)
    (keyMarker versionIdMarker : Option String) (s : σ)
    (h : (listObjectVersionsLoop env bucket fuel keyMarker versionIdMarker s).out ≠ .outOfFuel) :
    listObjectVersionsLoop env bucket (fuel + 1) keyMarker versionIdMarker s =
      listObjectVersionsLoop env bucket fuel keyMarker versionIdMarker s := by
  induction fuel generalizing keyMarker versionIdMarker s with
  | zero => exact absurd rfl h
  | succ n ih =>
    rw [listObjectVersionsLoop] at h
    rw [listObjectVersionsLoop, listObjectVersionsLoop]
    apply Res.andThen_congr
    intro out hout
    rw [Res.andThen_out_ok _ _ out hout] at h
    apply Res.andThen_congr
    intro u hu
    rw [Res.andThen_out_ok _ _ u hu] at h
    apply Res.andThen_congr
    intro u' hu'
    rw [Res.andThen_out_ok _ _ u' hu'] at h
    by_cases ht : out.IsTruncated = true
    · simp only [ht, if_true] at h ⊢
      exact ih _ _ _ h
    · rw [if_neg ht, if_neg ht]

theorem listObjectVersionsLoop_add {σ : Type} (env : Env σ) (bucket : String) (fuel k : Nat)
    (keyMarker versionIdMarker : Option String) (s : σ)
    (h : (listObjectVersionsLoop env bucket fuel keyMarker versionIdMarker s).out ≠ .outOfFuel) :
    listObjectVersionsLoop env bucket (fuel + k) keyMarker versionIdMarker s =
      listObjectVersionsLoop env bucket fuel keyMarker versionIdMarker s := by
  induction k with
  | zero => rfl
  | succ k ih =>
    rw [← Nat.add_assoc,
      listObjectVersionsLoop_succ env bucket (fuel + k) keyMarker versionIdMarker s
        (by rw [ih]; exact h)]
    exact ih

theorem Res.andThen_out_ne_outOfFuel {σ α β : Type} (r : Res σ α) (f : α → σ → Res σ β)
    (h : (r.andThen f).out ≠ .outOfFuel) : r.out ≠ .outOfFuel := by
  intro hr
  apply h
  unfold Res.andThen
  rw [hr]

/-- A forced or unforced `deleteBucket` that has ended within a budget runs
the same under every larger budget. -/
theorem deleteBucket_add {σ : Type} (env : Env σ) (ss : awsS3StateStore) (fuel k : Nat)
    (force : Bool) (s : σ) (h : (ss.deleteBucket env fuel force s).out ≠ .outOfFuel) :
    ss.deleteBucket env (fuel + k) force s = ss.deleteBucket env fuel force s := by
  unfold awsS3StateStore.deleteBucket at h ⊢
  have h1 := Res.andThen_out_ne_outOfFuel _ _ h
  cases force with
  | false => rfl
  | true =>
    simp only [if_true] at h1 ⊢
    have h2 := Res.andThen_out_ne_outOfFuel _ _ h1
    rw [listObjectsLoop_add env _ fuel k none s h2]
    congr 1
    apply Res.andThen_congr
    intro u hu
    rw [Res.andThen_out_ok _ _ u hu] at h1
    exact listObjectVersionsLoop_add env _ fuel k none none _ h1

/-- C2: in `deleteBucket(force=true)`, a delete-object call that fails is the
last call of the purge (no list, delete-object or delete-bucket call follows
it), and the function returns a non-nil error whose message contains the key
and the version identifier of that call; the run is the same under every
larger iteration budget. -/
theorem deleteBucket_failed_delete_aborts {σ : Type} (env : Env σ) (ss : awsS3StateStore)
    (fuel : Nat) (s : σ) (pre post : List Event) (bucket key : String)
    (versionId : Option String) (err : GoError)
    (h : (ss.deleteBucket env fuel true s).events =
      pre ++ ⟨.DeleteObject bucket key versionId, some err⟩ :: post) :
    post = [] ∧
    (ss.deleteBucket env fuel true s).out =
      .err ("error deleting object " ++ key ++ "/" ++ awsToString versionId ++ ": " ++ err) ∧
    key.data <:+:
      ("error deleting object " ++ key ++ "/" ++ awsToString versionId ++ ": " ++ err).data ∧
    (awsToString versionId).data <:+:
      ("error deleting object " ++ key ++ "/" ++ awsToString versionId ++ ": " ++ err).data ∧
    ∀ k, ss.deleteBucket env (fuel + k) true s = ss.deleteBucket env fuel true s := by
  have hs := stops_last _ (stops_deleteBucket env ss fuel true s) pre post _ _ h rfl
  refine ⟨hs.1, hs.2, ?_, ?_, ?_⟩
  · exact ⟨"error deleting object ".data, ("/" ++ awsToString versionId ++ ": " ++ err).data,
      by simp [String.data_append]⟩
  · exact ⟨("error deleting object " ++ key ++ "/").data, (": " ++ err).data,
      by simp [String.data_append]⟩
  · intro k
    apply deleteBucket_add
    rw [hs.2]
    exact fun hne => Outcome.noConfusion hne

/-- Witness of C2: the delete of `a`/`v1` fails after three calls of the
purge; nothing is called after it, not even the delete of `b`/`v1` on the
same page. -/
theorem deleteBucket_failed_delete_aborts_witness :
    (sampleStore.deleteBucket failingDeleteEnv 1 true ()).events =
      [⟨.ListObjectsV2 "my-app-prd-state" none, none⟩,
       ⟨.DeleteObject "my-app-prd-state" "a" none, none⟩,
       ⟨.ListObjectVersions "my-app-prd-state" none none, none⟩,
       ⟨.DeleteObject "my-app-prd-state" "a" (some "v2"), none⟩] ++
      ⟨.DeleteObject "my-app-prd-state" "a" (some "v1"), some "AccessDenied"⟩ :: [] ∧
    (sampleStore.deleteBucket failingDeleteEnv 1 true ()).out =
      .err "error deleting object a/v1: AccessDenied" :=
  ⟨by decide,
   (deleteBucket_failed_delete_aborts failingDeleteEnv sampleStore 1 ()
      [⟨.ListObjectsV2 "my-app-prd-state" none, none⟩,
       ⟨.DeleteObject "my-app-prd-state" "a" none, none⟩,
       ⟨.ListObjectVersions "my-app-prd-state" none none, none⟩,
       ⟨.DeleteObject "my-app-prd-state" "a" (some "v2"), none⟩] []
      "my-app-prd-state" "a" (some "v1") "AccessDenied" (by decide)).2.1⟩

/-! ### Opening the object-storage store -/

theorem callErr_cases {σ : Type} (c : Call) (wrap : GoError → GoError)
    (op : σ → Option GoError × σ) (s : σ) :
    (callErr c wrap op s = ⟨.ok (), (op s).2, [⟨c, none⟩]⟩ ∧ (op s).1 = none) ∨
    (∃ e, callErr c wrap op s = ⟨.err (wrap e), (op s).2, [⟨c, some e⟩]⟩ ∧ (op s).1 = some e) := by
  unfold callErr
  cases h : (op s).1 with
  | none => exact Or.inl ⟨rfl, rfl⟩
  | some e => exact Or.inr ⟨e, rfl, rfl⟩

theorem callOut_cases {σ α : Type} (c : Call) (wrap : GoError → GoError)
    (op : σ → Except GoError α × σ) (s : σ) :
    (∃ a, callOut c wrap op s = ⟨.ok a, (op s).2, [⟨c, none⟩]⟩ ∧ (op s).1 = .ok a) ∨
    (∃ e, callOut c wrap op s = ⟨.err (wrap e), (op s).2, [⟨c, some e⟩]⟩ ∧
      (op s).1 = .error e) := by
  unfold callOut
  cases h : (op s).1 with
  | ok a => exact Or.inl ⟨a, rfl, rfl⟩
  | error e => exact Or.inr ⟨e, rfl, rfl⟩

theorem bucketExists_listed {σ : Type} (env : Env σ) (ss : awsS3StateStore) (s : σ)
    (buckets : List String) (h : (env.ListBuckets s).1 = .ok buckets) :
    ss.bucketExists env s =
      ⟨.ok (decide (ss.BucketName ∈ buckets)), (env.ListBuckets s).2, [⟨.ListBuckets, none⟩]⟩ := by
  unfold awsS3StateStore.bucketExists callOut
  rw [h]
  simp only [Res.andThen, Res.pure, List.append_nil]
  congr 2
  rw [Bool.eq_iff_iff]
  simp only [List.any_eq_true, beq_iff_eq, decide_eq_true_eq]
  constructor
  · rintro ⟨x, hx, rfl⟩
    exact hx
  · intro hx
    exact ⟨_, hx, rfl⟩

/-- The calls of `StoreOpen` after the existence check, when the bucket is in
the listing: at most the probe, the environment setting and the login. -/
theorem StoreOpen_existing_calls {σ : Type} (env : Env σ) (ss : awsS3StateStore) (s : σ)
    (buckets : List String) (h : (env.ListBuckets s).1 = .ok buckets)
    (hmem : ss.BucketName ∈ buckets) :
    (ss.StoreOpen env s).events.map Event.call <+:
      [.ListBuckets, .HeadBucket ss.BucketName,
       .Setenv "PULUMI_CONFIG_PASSPHRASE" "we need a persistent token for the project here",
       .Exec none "pulumi" ["login", "s3://" ++ ss.BucketName]] := by
  unfold awsS3StateStore.StoreOpen
  rw [bucketExists_listed env ss s buckets h]
  simp only [hmem, decide_True, awsS3StateStore.bucketIsAccessible]
  rw [Res.andThen_ok _ _ true rfl]
  simp only [Bool.not_true, Bool.false_eq_true, if_false]
  rw [Res.andThen_ok (Res.pure () _) _ () rfl]
  simp only [Res.pure, List.nil_append]
  rcases callErr_cases (.HeadBucket ss.BucketName) id (env.HeadBucket ss.BucketName)
    (env.ListBuckets s).2 with ⟨e1, _⟩ | ⟨e, e1, _⟩
  · rw [e1, Res.andThen_ok _ _ () rfl]
    simp only
    rcases callErr_cases
      (.Setenv "PULUMI_CONFIG_PASSPHRASE" "we need a persistent token for the project here") id
      (env.Setenv "PULUMI_CONFIG_PASSPHRASE" "we need a persistent token for the project here")
      (env.HeadBucket ss.BucketName (env.ListBuckets s).2).2 with ⟨e2, _⟩ | ⟨e, e2, _⟩
    · rw [e2, Res.andThen_ok _ _ () rfl]
      simp only
      cases env.ParseRequestURI ("s3://" ++ ss.BucketName) with
      | some err => simp [List.prefix_iff_eq_take]
      | none =>
        simp only
        rcases callErr_cases (.Exec none "pulumi" ["login", "s3://" ++ ss.BucketName]) id
          (env.Exec none "pulumi" ["login", "s3://" ++ ss.BucketName])
          (env.Setenv "PULUMI_CONFIG_PASSPHRASE"
            "we need a persistent token for the project here"
            (env.HeadBucket ss.BucketName (env.ListBuckets s).2).2).2 with ⟨e3, _⟩ | ⟨e, e3, _⟩
        · rw [e3, Res.andThen_ok _ _ () rfl]
          simp
        · rw [e3, Res.andThen_err _ _ _ rfl]
          simp
    · rw [e2, Res.andThen_err _ _ _ rfl]
      simp [List.prefix_iff_eq_take]
  · rw [e1, Res.andThen_err _ _ _ rfl]
    simp [List.prefix_iff_eq_take]

/-- C3: when the bucket listing contains the derived bucket name, `StoreOpen`
issues no create-bucket, put-bucket-tagging or put-bucket-encryption call; its
calls are an initial part of: list-buckets, the probe, the environment
setting, the login. -/
theorem StoreOpen_existing_bucket_not_recreated {σ : Type} (env : Env σ)
    (ss : awsS3StateStore) (s : σ) (buckets : List String)
    (h : (env.ListBuckets s).1 = .ok buckets) (hmem : ss.BucketName ∈ buckets) :
    (∀ ev ∈ (ss.StoreOpen env s).events,
      (∀ b r, ev.call ≠ .CreateBucket b r) ∧ (∀ b t, ev.call ≠ .PutBucketTagging b t) ∧
      (∀ b a, ev.call ≠ .PutBucketEncryption b a)) ∧
    (ss.StoreOpen env s).events.map Event.call <+:
      [.ListBuckets, .HeadBucket ss.BucketName,
       .Setenv "PULUMI_CONFIG_PASSPHRASE" "we need a persistent token for the project here",
       .Exec none "pulumi" ["login", "s3://" ++ ss.BucketName]] := by
  have hp := StoreOpen_existing_calls env ss s buckets h hmem
  refine ⟨?_, hp⟩
  intro ev hev
  have hc : ev.call ∈ (ss.StoreOpen env s).events.map Event.call := List.mem_map_of_mem _ hev
  have hc' := hp.subset hc
  simp only [List.mem_cons, List.mem_singleton, List.not_mem_nil, or_false] at hc'
  rcases hc' with e | e | e | e <;> rw [e] <;> simp

/-- Witness of C3: the account lists `other` and `my-app-prd-state`; the store
with tags configured opens with four calls, none of them creating, tagging or
encrypting. -/
theorem StoreOpen_existing_bucket_not_recreated_witness :
    (sampleStore.StoreOpen existingBucketEnv ()).events.map Event.call =
      [.ListBuckets, .HeadBucket "my-app-prd-state",
       .Setenv "PULUMI_CONFIG_PASSPHRASE" "we need a persistent token for the project here",
       .Exec none "pulumi" ["login", "s3://my-app-prd-state"]] ∧
    (sampleStore.StoreOpen existingBucketEnv ()).out = .ok "s3://my-app-prd-state" ∧
    (∀ ev ∈ (sampleStore.StoreOpen existingBucketEnv ()).events,
      (∀ b r, ev.call ≠ .CreateBucket b r) ∧ (∀ b t, ev.call ≠ .PutBucketTagging b t) ∧
      (∀ b a, ev.call ≠ .PutBucketEncryption b a)) :=
  ⟨by decide, by decide,
   (StoreOpen_existing_bucket_not_recreated existingBucketEnv sampleStore ()
      ["other", "my-app-prd-state"] rfl (by decide)).1⟩

/-- Either `createBucket` made its calls without error and returned nil, or
one of its calls returned an error. -/
theorem createBucket_cases {σ : Type} (env : Env σ) (ss : awsS3StateStore) (s : σ) :
    ((ss.createBucket env s).out = .ok () ∧
      (ss.createBucket env s).events =
        [⟨.CreateBucket ss.BucketName ss.bucketRegion, none⟩] ++
        (if ss.bucketTags.length > 0 then
          [(⟨.PutBucketTagging ss.BucketName ss.bucketTags, none⟩ : Event)] else []) ++
        [⟨.PutBucketEncryption ss.BucketName ServerSideEncryptionAes256, none⟩]) ∨
    (∃ c e, (⟨c, some e⟩ : Event) ∈ (ss.createBucket env s).events) := by
  unfold awsS3StateStore.createBucket
  simp only
  rcases callOut_cases (.CreateBucket ss.BucketName ss.bucketRegion) id
    (env.CreateBucket ss.BucketName ss.bucketRegion) s with ⟨loc, e1, _⟩ | ⟨e, e1, _⟩
  · rw [e1, Res.andThen_ok _ _ loc rfl]
    simp only
    by_cases ht : ss.bucketTags.length > 0
    · simp only [ht, if_true]
      rcases callErr_cases (.PutBucketTagging ss.BucketName ss.bucketTags) id
        (env.PutBucketTagging ss.BucketName ss.bucketTags)
        (env.CreateBucket ss.BucketName ss.bucketRegion s).2 with ⟨e2, _⟩ | ⟨e, e2, _⟩
      · rw [e2, Res.andThen_ok _ _ () rfl]
        simp only
        rcases callErr_cases (.PutBucketEncryption ss.BucketName ServerSideEncryptionAes256) id
          (env.PutBucketEncryption ss.BucketName ServerSideEncryptionAes256)
          (env.PutBucketTagging ss.BucketName ss.bucketTags
            (env.CreateBucket ss.BucketName ss.bucketRegion s).2).2 with ⟨e3, _⟩ | ⟨e, e3, _⟩
        · rw [e3]
          exact Or.inl ⟨rfl, rfl⟩
        · rw [e3]
          exact Or.inr ⟨.PutBucketEncryption ss.BucketName ServerSideEncryptionAes256, e, by simp⟩
      · rw [e2, Res.andThen_err _ _ _ rfl]
        exact Or.inr ⟨.PutBucketTagging ss.BucketName ss.bucketTags, e, by simp⟩
    · simp only [ht, if_false]
      rw [Res.andThen_ok (Res.pure () _) _ () rfl]
      simp only [Res.pure]
      rcases callErr_cases (.PutBucketEncryption ss.BucketName ServerSideEncryptionAes256) id
        (env.PutBucketEncryption ss.BucketName ServerSideEncryptionAes256)
        (env.CreateBucket ss.BucketName ss.bucketRegion s).2 with ⟨e3, _⟩ | ⟨e, e3, _⟩
      · rw [e3]
        exact Or.inl ⟨rfl, rfl⟩
      · rw [e3]
        exact Or.inr ⟨.PutBucketEncryption ss.BucketName ServerSideEncryptionAes256, e, by simp⟩
  · rw [e1, Res.andThen_err _ _ _ rfl]
    exact Or.inr ⟨.CreateBucket ss.BucketName ss.bucketRegion, e, by simp⟩

/-- When the bucket is not in the listing and the URI is valid, either
`StoreOpen` made the calls of a first creation without error and returned the
URI, or one of its calls returned an error. -/
theorem StoreOpen_absent_cases {σ : Type} (env : Env σ) (ss : awsS3StateStore) (s : σ)
    (buckets : List String) (h : (env.ListBuckets s).1 = .ok buckets)
    (hnot : ss.BucketName ∉ buckets)
    (hparse : env.ParseRequestURI ("s3://" ++ ss.BucketName) = none) :
    ((ss.StoreOpen env s).out = .ok ("s3://" ++ ss.BucketName) ∧
      (ss.StoreOpen env s).events =
        [⟨.ListBuckets, none⟩] ++
        ([⟨.CreateBucket ss.BucketName ss.bucketRegion, none⟩] ++
          (if ss.bucketTags.length > 0 then
            [(⟨.PutBucketTagging ss.BucketName ss.bucketTags, none⟩ : Event)] else []) ++
          [⟨.PutBucketEncryption ss.BucketName ServerSideEncryptionAes256, none⟩] ++
        [⟨.HeadBucket ss.BucketName, none⟩,
         ⟨.Setenv "PULUMI_CONFIG_PASSPHRASE" "we need a persistent token for the project here",
          none⟩,
         ⟨.Exec none "pulumi" ["login", "s3://" ++ ss.BucketName], none⟩])) ∨
    (∃ c e, (⟨c, some e⟩ : Event) ∈ (ss.StoreOpen env s).events) := by
  unfold awsS3StateStore.StoreOpen
  rw [bucketExists_listed env ss s buckets h]
  simp only [hnot, decide_False, awsS3StateStore.bucketIsAccessible]
  rw [Res.andThen_ok _ _ false rfl]
  simp only [Bool.not_false, if_true]
  rcases createBucket_cases env ss (env.ListBuckets s).2 with ⟨hc1, hc2⟩ | ⟨c, e, hmem⟩
  · rw [Res.andThen_ok _ _ () hc1, hc2]
    simp only
    generalize (ss.createBucket env (env.ListBuckets s).2).st = s2
    rcases callErr_cases (.HeadBucket ss.BucketName) id (env.HeadBucket ss.BucketName) s2
      with ⟨e1, _⟩ | ⟨e, e1, _⟩
    · rw [e1, Res.andThen_ok _ _ () rfl]
      simp only
      generalize (env.HeadBucket ss.BucketName s2).2 = s3
      rcases callErr_cases
        (.Setenv "PULUMI_CONFIG_PASSPHRASE" "we need a persistent token for the project here")
        id
        (env.Setenv "PULUMI_CONFIG_PASSPHRASE" "we need a persistent token for the project here")
        s3 with ⟨e2, _⟩ | ⟨e, e2, _⟩
      · rw [e2, Res.andThen_ok _ _ () rfl]
        simp only [hparse]
        generalize (env.Setenv "PULUMI_CONFIG_PASSPHRASE"
          "we need a persistent token for the project here" s3).2 = s4
        rcases callErr_cases (.Exec none "pulumi" ["login", "s3://" ++ ss.BucketName]) id
          (env.Exec none "pulumi" ["login", "s3://" ++ ss.BucketName]) s4
          with ⟨e3, _⟩ | ⟨e, e3, _⟩
        · rw [e3, Res.andThen_ok _ _ () rfl]
          left
          simp [Res.pure]
        · rw [e3, Res.andThen_err _ _ _ rfl]
          exact Or.inr ⟨.Exec none "pulumi" ["login", "s3://" ++ ss.BucketName], e, by simp⟩
      · rw [e2, Res.andThen_err _ _ _ rfl]
        exact Or.inr
          ⟨.Setenv "PULUMI_CONFIG_PASSPHRASE" "we need a persistent token for the project here",
            e, by simp⟩
    · rw [e1, Res.andThen_err _ _ _ rfl]
      exact Or.inr ⟨.HeadBucket ss.BucketName, e, by simp⟩
  · refine Or.inr ⟨c, e, ?_⟩
    simp only [List.mem_append]
    right
    exact (Res.andThen_events_prefix _ _).subset hmem

/-- C4: the bucket name derived from `StateStoreName("My App!",
AppEnvProduction)` is `my-app-prd-state`; and when the listing has no bucket of
the derived name, the state URI is valid and every call `StoreOpen` makes
succeeds, `StoreOpen` calls list-buckets, create-bucket in the configured
region, put-bucket-tagging exactly when the tag map is non-empty,
put-bucket-encryption with AES256, the probe, the environment setting and the
login, in this order, and returns `s3://` followed by the bucket name. -/
theorem StoreOpen_creates_absent_bucket {σ : Type} (env : Env σ) (ss : awsS3StateStore)
    (s : σ) (buckets : List String) (h : (env.ListBuckets s).1 = .ok buckets)
    (hnot : ss.BucketName ∉ buckets)
    (hparse : env.ParseRequestURI ("s3://" ++ ss.BucketName) = none)
    (hok : ∀ ev ∈ (ss.StoreOpen env s).events, ev.err = none) :
    (∀ (caseRanges : Char → Char) (region : String) (tags : List (String × String)),
      (awsS3StateStore.mk (StateStoreName caseRanges "My App!" AppEnvProduction)
        region tags).BucketName = "my-app-prd-state") ∧
    (ss.StoreOpen env s).events.map Event.call =
      [.ListBuckets, .CreateBucket ss.BucketName ss.bucketRegion] ++
      (if ss.bucketTags = [] then [] else [.PutBucketTagging ss.BucketName ss.bucketTags]) ++
      [.PutBucketEncryption ss.BucketName "AES256", .HeadBucket ss.BucketName,
       .Setenv "PULUMI_CONFIG_PASSPHRASE" "we need a persistent token for the project here",
       .Exec none "pulumi" ["login", "s3://" ++ ss.BucketName]] ∧
    (ss.StoreOpen env s).out = .ok ("s3://" ++ ss.BucketName) := by
  refine ⟨?_, ?_⟩
  · intro caseRanges region tags
    simp [awsS3StateStore.BucketName, StateStoreName, Application.ID, stringsToLower,
      replaceAllChar, replaceAllOutsideClass, unicodeToLower, classAlnumHyphen,
      ApplicationEnvironment.ID, AppEnvProduction, AppEnvSandbox, AppEnvDevelopment,
      AppEnvIntegration]
  · rcases StoreOpen_absent_cases env ss s buckets h hnot hparse with ⟨h1, h2⟩ | ⟨c, e, hmem⟩
    · refine ⟨?_, h1⟩
      rw [h2]
      cases htags : ss.bucketTags with
      | nil => simp [ServerSideEncryptionAes256]
      | cons t ts => simp [ServerSideEncryptionAes256]
    · have := hok _ hmem
      cases this

/-- Witness of C4: no bucket is listed; the store of the end-to-end scenario is
created, tagged, encrypted, probed and logged in to. -/
theorem StoreOpen_creates_absent_bucket_witness :
    (sampleStore.StoreOpen quietEnv ()).events.map Event.call =
      [.ListBuckets, .CreateBucket "my-app-prd-state" "eu-central-1",
       .PutBucketTagging "my-app-prd-state" [("team", "ccoe")],
       .PutBucketEncryption "my-app-prd-state" "AES256", .HeadBucket "my-app-prd-state",
       .Setenv "PULUMI_CONFIG_PASSPHRASE" "we need a persistent token for the project here",
       .Exec none "pulumi" ["login", "s3://my-app-prd-state"]] ∧
    (sampleStore.StoreOpen quietEnv ()).out = .ok ("s3://" ++ sampleStore.BucketName) :=
  ⟨by decide,
   (StoreOpen_creates_absent_bucket quietEnv sampleStore () [] rfl (by simp) rfl
      (by decide)).2.2⟩

/-! ### Deleting a store -/

/-- C5, the code of the local store: for every value of `force`,
`DefaultStateStore.StoreDelete` makes exactly one call, the removal of the
state path; it runs no engine command, so no logout precedes the removal. -/
theorem DefaultStateStore_StoreDelete_only_removes {σ : Type} (env : Env σ)
    (ss : DefaultStateStore) (force : Bool) (s : σ) :
    (ss.StoreDelete env force s).events.map Event.call =
      [if force then .RemoveAll (env.pathJoin ss.path ss.name)
       else .Remove (env.pathJoin ss.path ss.name)] ∧
    (∀ ev ∈ (ss.StoreDelete env force s).events,
      ∀ dir name args, ev.call ≠ .Exec dir name args) := by
  have hcalls : (ss.StoreDelete env force s).events.map Event.call =
      [if force then .RemoveAll (env.pathJoin ss.path ss.name)
       else .Remove (env.pathJoin ss.path ss.name)] := by
    unfold DefaultStateStore.StoreDelete
    cases force with
    | true =>
      rcases callErr_cases (.RemoveAll (env.pathJoin ss.path ss.name)) id
        (env.RemoveAll (env.pathJoin ss.path ss.name)) s with ⟨e1, _⟩ | ⟨e, e1, _⟩ <;>
      simp [e1]
    | false =>
      rcases callErr_cases (.Remove (env.pathJoin ss.path ss.name)) id
        (env.Remove (env.pathJoin ss.path ss.name)) s with ⟨e1, _⟩ | ⟨e, e1, _⟩ <;>
      simp [e1]
  refine ⟨hcalls, ?_⟩
  intro ev hev dir name args
  have hc : ev.call ∈ (ss.StoreDelete env force s).events.map Event.call :=
    List.mem_map_of_mem _ hev
  rw [hcalls] at hc
  cases force <;> simp at hc <;> rw [hc] <;> simp

/-- The object-storage store closes first: the calls of `StoreDelete` begin
with the calls of `StoreClose`, and a failed close ends the deletion. -/
theorem awsS3StateStore_StoreDelete_closes_first {σ : Type} (env : Env σ)
    (ss : awsS3StateStore) (fuel : Nat) (force : Bool) (s : σ) :
    (ss.StoreClose env s).events <+: (ss.StoreDelete env fuel force s).events ∧
    (∀ e, (ss.StoreClose env s).out = .err e →
      (ss.StoreDelete env fuel force s).events = (ss.StoreClose env s).events ∧
      (ss.StoreDelete env fuel force s).out = .err e) := by
  refine ⟨Res.andThen_events_prefix _ _, ?_⟩
  intro e he
  unfold awsS3StateStore.StoreDelete
  rw [Res.andThen_err _ _ e he]
  exact ⟨rfl, rfl⟩

/-- The two deletions side by side on sample stores: the local store removes
without a logout, the object-storage store probes and logs out first. -/
theorem StoreDelete_sample_runs :
    (sampleLocalStore.StoreDelete quietEnv true ()).events =
      [⟨.RemoveAll "/var/state/store", none⟩] ∧
    (sampleLocalStore.StoreDelete quietEnv false ()).events =
      [⟨.Remove "/var/state/store", none⟩] ∧
    (sampleStore.StoreDelete quietEnv 1 false ()).events =
      [⟨.HeadBucket "my-app-prd-state", none⟩,
       ⟨.Exec none "pulumi" ["logout", "s3://my-app-prd-state"], none⟩,
       ⟨.DeleteBucket "my-app-prd-state", none⟩] := by
  decide

/-! ### Closing the object-storage store -/

/-- C6 as stated fails: the probe reports not-found, the engine's logout would
succeed, and `StoreClose` returns the probe's error without calling the
logout. -/
theorem StoreClose_absent_bucket_fails :
    (absentBucketEnv.HeadBucket sampleStore.BucketName ()).1 = some "NotFound: Not Found" ∧
    (absentBucketEnv.Exec none "pulumi" ["logout", "s3://" ++ sampleStore.BucketName] ()).1
      = none ∧
    (sampleStore.StoreClose absentBucketEnv ()).out = .err "NotFound: Not Found" ∧
    (sampleStore.StoreClose absentBucketEnv ()).out ≠ .ok () ∧
    (sampleStore.StoreClose absentBucketEnv ()).events =
      [⟨.HeadBucket "my-app-prd-state", some "NotFound: Not Found"⟩] := by
  decide

/-- C6 amended: `StoreClose` probes first; an error of the probe (not-found
included) is returned unchanged and no logout is called; when the probe
succeeds, the state URI is valid and the logout succeeds, `StoreClose` returns
no error. -/
theorem StoreClose_probe_then_logout {σ : Type} (env : Env σ) (ss : awsS3StateStore)
    (s : σ) :
    (∀ e, (env.HeadBucket ss.BucketName s).1 = some e →
      (ss.StoreClose env s).out = .err e ∧
      (ss.StoreClose env s).events = [⟨.HeadBucket ss.BucketName, some e⟩]) ∧
    ((env.HeadBucket ss.BucketName s).1 = none →
      env.ParseRequestURI ("s3://" ++ ss.BucketName) = none →
      (env.Exec none "pulumi" ["logout", "s3://" ++ ss.BucketName]
        (env.HeadBucket ss.BucketName s).2).1 = none →
      (ss.StoreClose env s).out = .ok () ∧
      (ss.StoreClose env s).events =
        [⟨.HeadBucket ss.BucketName, none⟩,
         ⟨.Exec none "pulumi" ["logout", "s3://" ++ ss.BucketName], none⟩]) := by
  constructor
  · intro e he
    simp [awsS3StateStore.StoreClose, awsS3StateStore.bucketIsAccessible, callErr, he,
      Res.andThen]
  · intro h1 h2 h3
    simp [awsS3StateStore.StoreClose, awsS3StateStore.bucketIsAccessible, callErr, h1, h2, h3,
      Res.andThen]

/-- Witness of C6 amended, on both sides: the absent bucket, and a bucket that
answers the probe. -/
theorem StoreClose_probe_then_logout_witness :
    ((sampleStore.StoreClose absentBucketEnv ()).out = .err "NotFound: Not Found" ∧
      (sampleStore.StoreClose absentBucketEnv ()).events =
        [⟨.HeadBucket sampleStore.BucketName, some "NotFound: Not Found"⟩]) ∧
    ((sampleStore.StoreClose quietEnv ()).out = .ok () ∧
      (sampleStore.StoreClose quietEnv ()).events =
        [⟨.HeadBucket sampleStore.BucketName, none⟩,
         ⟨.Exec none "pulumi" ["logout", "s3://" ++ sampleStore.BucketName], none⟩]) :=
  ⟨(StoreClose_probe_then_logout absentBucketEnv sampleStore ()).1 "NotFound: Not Found" rfl,
   (StoreClose_probe_then_logout quietEnv sampleStore ()).2 rfl rfl rfl⟩

/-! ### The bucket name -/

theorem Res.andThen_ok_inv {σ α β : Type} (r : Res σ α) (f : α → σ → Res σ β) (b : β)
    (h : (r.andThen f).out = .ok b) : ∃ a, r.out = .ok a ∧ (f a r.st).out = .ok b := by
  cases hout : r.out with
  | ok a =>
    rw [Res.andThen_ok r f a hout] at h
    exact ⟨a, rfl, h⟩
  | err e =>
    rw [Res.andThen_err r f e hout] at h
    cases h
  | panic v =>
    unfold Res.andThen at h
    rw [hout] at h
    cases h
  | outOfFuel =>
    unfold Res.andThen at h
    rw [hout] at h
    cases h

/-- The URI a successful `StoreOpen` returns. -/
theorem StoreOpen_returns_uri {σ : Type} (env : Env σ) (ss : awsS3StateStore) (s : σ)
    (uri : String) (h : (ss.StoreOpen env s).out = .ok uri) :
    uri = "s3://" ++ ss.BucketName := by
  unfold awsS3StateStore.StoreOpen at h
  obtain ⟨_, -, h⟩ := Res.andThen_ok_inv _ _ _ h
  obtain ⟨_, -, h⟩ := Res.andThen_ok_inv _ _ _ h
  obtain ⟨_, -, h⟩ := Res.andThen_ok_inv _ _ _ h
  obtain ⟨_, -, h⟩ := Res.andThen_ok_inv _ _ _ h
  split at h
  · cases h
  · obtain ⟨_, -, h⟩ := Res.andThen_ok_inv _ _ _ h
    simp only [Res.pure] at h
    exact (Outcome.ok.inj h).symm

/-- C7 as stated fails: for the base name `My App` the bucket name is
`My App-state`, not the sanitized base name followed by `-state`. -/
theorem BucketName_not_sanitized :
    GetAWSS3StateStore sampleGetenv (fun _ => none) "My App" [] =
      .ok ⟨"My App", "eu-central-1", []⟩ ∧
    (awsS3StateStore.mk "My App" "eu-central-1" []).BucketName = "My App-state" ∧
    Application.ID sampleCaseRanges "My App" ++ "-state" = "my-app-state" ∧
    SanitizeForID sampleCaseRanges "My App" ++ "-state" = "my-app-state" ∧
    (awsS3StateStore.mk "My App" "eu-central-1" []).BucketName ≠
      Application.ID sampleCaseRanges "My App" ++ "-state" ∧
    (awsS3StateStore.mk "My App" "eu-central-1" []).BucketName ≠
      SanitizeForID sampleCaseRanges "My App" ++ "-state" :=
  ⟨rfl, by decide, by decide, by decide, by decide, by decide⟩

/-- C7 amended: the store built by `GetAWSS3StateStore` keeps the base name as
given, its bucket name is that base name followed by `-state`, and the URI a
successful `StoreOpen` returns is `s3://` followed by the bucket name; the
bucket name is the sanitized base name followed by `-state` when the base name
has only characters of `[a-z0-9-]`. -/
theorem BucketName_verbatim {σ : Type} (getenv : String → String)
    (loadConfig : String → Option GoError) (baseName : String)
    (bucketTags : List (String × String)) (ss : awsS3StateStore)
    (hss : GetAWSS3StateStore getenv loadConfig baseName bucketTags = .ok ss) :
    ss.BucketName = baseName ++ "-state" ∧
    (∀ (env : Env σ) (s : σ) (uri : String), (ss.StoreOpen env s).out = .ok uri →
      uri = "s3://" ++ (baseName ++ "-state")) ∧
    (∀ caseRanges : Char → Char, (∀ c ∈ baseName.data, lowerAlnumHyphen c) →
      ss.BucketName = Application.ID caseRanges baseName ++ "-state") := by
  have hbase : ss.baseName = baseName := by
    unfold GetAWSS3StateStore at hss
    simp only at hss
    split at hss
    · cases hss
    · cases hss
      rfl
  have hname : ss.BucketName = baseName ++ "-state" := by
    unfold awsS3StateStore.BucketName
    rw [hbase]
  refine ⟨hname, ?_, ?_⟩
  · intro env s uri hout
    rw [← hname]
    exact StoreOpen_returns_uri env ss s uri hout
  · intro caseRanges hchars
    rw [hname, Application_ID_fixed caseRanges baseName hchars]

/-- Witness of C7 amended, on the base name of the end-to-end scenario. -/
theorem BucketName_verbatim_witness :
    GetAWSS3StateStore sampleGetenv (fun _ => none) "my-app-prd" [("team", "ccoe")] =
      .ok ⟨"my-app-prd", "eu-central-1", [("team", "ccoe")]⟩ ∧
    (awsS3StateStore.mk "my-app-prd" "eu-central-1" [("team", "ccoe")]).BucketName =
      "my-app-prd" ++ "-state" ∧
    ((awsS3StateStore.mk "my-app-prd" "eu-central-1" [("team", "ccoe")]).StoreOpen
      quietEnv ()).out = .ok ("s3://" ++ ("my-app-prd" ++ "-state")) :=
  ⟨rfl,
   (BucketName_verbatim sampleGetenv (fun _ => none) "my-app-prd" [("team", "ccoe")]
      ⟨"my-app-prd", "eu-central-1", [("team", "ccoe")]⟩ rfl (σ := Unit)).1,
   by decide⟩

/-! ### The forced purge when the current listing is one page

With the current objects on a single page, the version loop follows the
markers over any number of pages. -/

theorem markerIndex_pageMarker (i : Nat) : markerIndex (pageMarker i) = i := by
  cases i with
  | zero => rfl
  | succ n => simp [pageMarker, markerIndex, String.length]

theorem deleteContents_pagedEnv (contents : List Object)
    (pages : List (List ObjectVersion × List ObjectVersion)) (bucket : String)
    (items : List Object) :
    deleteContents (pagedEnv contents pages) bucket items () =
      ⟨.ok (), (), items.map fun item => ⟨.DeleteObject bucket item.Key none, none⟩⟩ := by
  induction items with
  | nil => rfl
  | cons item rest ih =>
    rw [deleteContents, Res.andThen_ok _ _ () rfl]
    simp only [deleteObject, callErr, pagedEnv, quietEnv] at ih ⊢
    rw [ih]
    rfl

theorem deleteVersions_pagedEnv (contents : List Object)
    (pages : List (List ObjectVersion × List ObjectVersion)) (bucket : String)
    (items : List ObjectVersion) :
    deleteVersions (pagedEnv contents pages) bucket items () =
      ⟨.ok (), (), items.map (deleteEvent bucket)⟩ := by
  induction items with
  | nil => rfl
  | cons item rest ih =>
    rw [deleteVersions, Res.andThen_ok _ _ () rfl]
    simp only [deleteObject, callErr, pagedEnv, quietEnv] at ih ⊢
    rw [ih]
    rfl

theorem listObjectVersionsLoop_pagedEnv (contents : List Object)
    (pages : List (List ObjectVersion × List ObjectVersion)) (bucket : String)
    (fuel i : Nat) (page : List ObjectVersion × List ObjectVersion)
    (rest : List (List ObjectVersion × List ObjectVersion))
    (hdrop : pages.drop i = page :: rest) (hfuel : rest.length < fuel) :
    listObjectVersionsLoop (pagedEnv contents pages) bucket fuel (pageMarker i) (pageMarker i) ()
      = ⟨.ok (), (), pagedVersionEvents bucket i (page :: rest)⟩ := by
  induction fuel generalizing i page rest with
  | zero => omega
  | succ n ih =>
    rw [listObjectVersionsLoop]
    have hcall : callOut (.ListObjectVersions bucket (pageMarker i) (pageMarker i))
        (fun err => "listObjectVersions failed to list versions: " ++ err)
        ((pagedEnv contents pages).ListObjectVersions bucket (pageMarker i) (pageMarker i)) ()
        = ⟨.ok ⟨page.1, page.2, !rest.isEmpty, pageMarker (i + 1), pageMarker (i + 1)⟩, (),
            [⟨.ListObjectVersions bucket (pageMarker i) (pageMarker i), none⟩]⟩ := by
      simp only [callOut, pagedEnv, markerIndex_pageMarker, hdrop]
    rw [hcall, Res.andThen_ok _ _ _ rfl]
    simp only
    rw [deleteVersions_pagedEnv, Res.andThen_ok _ _ () rfl]
    simp only
    rw [deleteVersions_pagedEnv, Res.andThen_ok _ _ () rfl]
    simp only
    cases rest with
    | nil => simp [pagedVersionEvents, Res.pure]
    | cons page' rest' =>
      have hdrop' : pages.drop (i + 1) = page' :: rest' := by
        rw [← List.drop_drop, hdrop]
        rfl
      have hlen : rest'.length < n := by
        simp only [List.length_cons] at hfuel
        omega
      simp only [List.isEmpty_cons, Bool.not_false, if_true]
      rw [ih (i + 1) page' rest' hdrop' hlen]
      simp [pagedVersionEvents]

theorem pagedVersionEvents_deletes (bucket : String) (i : Nat)
    (pages : List (List ObjectVersion × List ObjectVersion)) :
    ((pagedVersionEvents bucket i pages).filter isDeleteObject).length =
      (pages.map fun page => page.1.length + page.2.length).sum := by
  induction pages generalizing i with
  | nil => rfl
  | cons page rest ih =>
    have hdel : ∀ items : List ObjectVersion,
        ((items.map (deleteEvent bucket)).filter isDeleteObject).length = items.length := by
      intro items
      rw [List.filter_eq_self.mpr, List.length_map]
      intro ev hev
      obtain ⟨item, _, rfl⟩ := List.mem_map.mp hev
      rfl
    simp only [pagedVersionEvents, List.filter_append, List.length_append, hdel, ih,
      List.map_cons, List.sum_cons]
    have h0 : (List.filter isDeleteObject
        [(⟨.ListObjectVersions bucket (pageMarker i) (pageMarker i), none⟩ : Event)]).length
        = 0 := rfl
    rw [h0]
    omega

/-- The forced purge on a bucket whose current listing is one page of N
entries and whose version listing has, over any number of pages, K delete
markers and M versions in total: with a budget above the number of pages the
purge ends without error, its calls are the current listing, one delete by key
per entry, the version pages in order each followed by its deletes by key and
version, and last the one delete-bucket call; the delete-object calls are
N + M + K. -/
theorem deleteBucket_force_single_current_page (ss : awsS3StateStore)
    (contents : List Object) (page : List ObjectVersion × List ObjectVersion)
    (rest : List (List ObjectVersion × List ObjectVersion)) (fuel : Nat)
    (hfuel : rest.length < fuel) :
    (ss.deleteBucket (pagedEnv contents (page :: rest)) fuel true ()).out = .ok () ∧
    (ss.deleteBucket (pagedEnv contents (page :: rest)) fuel true ()).events =
      [⟨.ListObjectsV2 ss.BucketName none, none⟩] ++
      (contents.map fun item => ⟨.DeleteObject ss.BucketName item.Key none, none⟩) ++
      pagedVersionEvents ss.BucketName 0 (page :: rest) ++
      [⟨.DeleteBucket ss.BucketName, none⟩] ∧
    ((ss.deleteBucket (pagedEnv contents (page :: rest)) fuel true ()).events.filter
        isDeleteObject).length =
      contents.length + ((page :: rest).map fun p => p.1.length + p.2.length).sum := by
  have hrun : ss.deleteBucket (pagedEnv contents (page :: rest)) fuel true () =
      ⟨.ok (), (),
        [⟨.ListObjectsV2 ss.BucketName none, none⟩] ++
        (contents.map fun item => ⟨.DeleteObject ss.BucketName item.Key none, none⟩) ++
        pagedVersionEvents ss.BucketName 0 (page :: rest) ++
        [⟨.DeleteBucket ss.BucketName, none⟩]⟩ := by
    obtain ⟨n, rfl⟩ : ∃ n, fuel = n + 1 := ⟨fuel - 1, by omega⟩
    have hfirst : listObjectsLoop (pagedEnv contents (page :: rest)) ss.BucketName (n + 1)
        none () = ⟨.ok (), (),
          [⟨.ListObjectsV2 ss.BucketName none, none⟩] ++
          (contents.map fun item => ⟨.DeleteObject ss.BucketName item.Key none, none⟩)⟩ := by
      rw [listObjectsLoop]
      have hcall : callOut (.ListObjectsV2 ss.BucketName none) id
          ((pagedEnv contents (page :: rest)).ListObjectsV2 ss.BucketName none) ()
          = ⟨.ok ⟨contents, false, none, none⟩, (),
              [⟨.ListObjectsV2 ss.BucketName none, none⟩]⟩ := rfl
      rw [hcall, Res.andThen_ok _ _ _ rfl]
      simp only
      rw [deleteContents_pagedEnv, Res.andThen_ok _ _ () rfl]
      simp [Res.pure]
    have hloop := listObjectVersionsLoop_pagedEnv contents (page :: rest) ss.BucketName
      (n + 1) 0 page rest rfl hfuel
    simp only [pageMarker] at hloop
    unfold awsS3StateStore.deleteBucket
    simp only [if_true]
    rw [hfirst, Res.andThen_ok (⟨.ok (), (), _⟩ : Res Unit Unit) _ () rfl]
    simp only
    rw [hloop, Res.andThen_ok (⟨.ok (), (), _⟩ : Res Unit Unit) _ () rfl]
    simp [callErr, pagedEnv, quietEnv]
  rw [hrun]
  refine ⟨rfl, rfl, ?_⟩
  simp only [List.filter_append, List.length_append, pagedVersionEvents_deletes]
  have h1 : (List.filter isDeleteObject
      [(⟨.ListObjectsV2 ss.BucketName none, none⟩ : Event)]).length = 0 := rfl
  have h2 : (List.filter isDeleteObject
      [(⟨.DeleteBucket ss.BucketName, none⟩ : Event)]).length = 0 := rfl
  have h3 : (List.filter isDeleteObject
      (contents.map fun item => (⟨.DeleteObject ss.BucketName item.Key none, none⟩ : Event))).length
      = contents.length := by
    rw [List.filter_eq_self.mpr, List.length_map]
    intro ev hev
    obtain ⟨item, _, rfl⟩ := List.mem_map.mp hev
    rfl
  rw [h1, h2, h3]
  omega

/-- A run of the forced purge on one current object and two version pages. -/
theorem deleteBucket_paged_sample :
    (sampleStore.deleteBucket
      (pagedEnv [⟨"a"⟩]
        [([⟨"a", some "m1"⟩], [⟨"a", some "v1"⟩]), ([], [⟨"b", some "v1"⟩])])
      2 true ()).events.map Event.call =
      [.ListObjectsV2 "my-app-prd-state" none,
       .DeleteObject "my-app-prd-state" "a" none,
       .ListObjectVersions "my-app-prd-state" none none,
       .DeleteObject "my-app-prd-state" "a" (some "m1"),
       .DeleteObject "my-app-prd-state" "a" (some "v1"),
       .ListObjectVersions "my-app-prd-state" (some "x") (some "x"),
       .DeleteObject "my-app-prd-state" "b" (some "v1"),
       .DeleteBucket "my-app-prd-state"] := by
  decide

/-! ### Recipes -/

theorem appendAll_Ingredients {Ingredient : Type} (dr : defaultRecipe Ingredient)
    (calls : List (List Ingredient)) :
    (appendAll dr calls).Ingredients = dr.Ingredients ++ calls.flatten ∧
    (appendAll dr calls).Name = dr.Name := by
  induction calls generalizing dr with
  | nil => simp [appendAll, defaultRecipe.Ingredients]
  | cons xs rest ih =>
    have h := ih (dr.Append xs)
    simp only [appendAll, List.foldl_cons] at h ⊢
    rw [h.1, h.2]
    simp [defaultRecipe.Append, defaultRecipe.Ingredients, defaultRecipe.Name]

/-- C11: after `Append(xs...)` the result of `Ingredients()` is the previous
result followed by `xs` in argument order, for every recipe and every `xs`
(empty, with duplicates, or with ingredients already present): nothing is
removed, reordered or deduplicated, so the length grows by the length of `xs`
and every ingredient occurs as often as before plus as often as in `xs`;
`Name()` is unchanged; the same holds over any sequence of `Append` calls; and
a recipe fresh from `GetDefaultRecipe(n)` has name `n` and no ingredients. -/
theorem Append_appends_in_order {Ingredient : Type} [DecidableEq Ingredient]
    (dr : defaultRecipe Ingredient) (xs : List Ingredient) :
    (dr.Append xs).Ingredients = dr.Ingredients ++ xs ∧
    (dr.Append xs).Name = dr.Name ∧
    (dr.Append xs).Ingredients.length = dr.Ingredients.length + xs.length ∧
    (∀ x, (dr.Append xs).Ingredients.count x = dr.Ingredients.count x + xs.count x) ∧
    (dr.Append []).Ingredients = dr.Ingredients ∧
    (∀ calls : List (List Ingredient),
      (appendAll dr calls).Ingredients = dr.Ingredients ++ calls.flatten ∧
      (appendAll dr calls).Name = dr.Name) ∧
    (∀ n : String, (GetDefaultRecipe n : defaultRecipe Ingredient).Name = n ∧
      (GetDefaultRecipe n : defaultRecipe Ingredient).Ingredients = []) := by
  have h1 : (dr.Append xs).Ingredients = dr.Ingredients ++ xs := rfl
  refine ⟨h1, rfl, ?_, ?_, ?_, appendAll_Ingredients dr, fun n => ⟨rfl, rfl⟩⟩
  · rw [h1, List.length_append]
  · intro x
    rw [h1, List.count_append]
  · show dr.ingredients ++ [] = dr.ingredients
    rw [List.append_nil]

/-- A run of C11 on strings as ingredients: duplicates within the arguments
and ingredients already in the recipe are kept, in order. -/
theorem Append_sample_run :
    (((GetDefaultRecipe "network" : defaultRecipe String).Append ["vpc", "subnet"]).Append
      ["subnet", "vpc", "vpc"]).Ingredients = ["vpc", "subnet", "subnet", "vpc", "vpc"] ∧
    (((GetDefaultRecipe "network" : defaultRecipe String).Append ["vpc", "subnet"]).Append
      ["subnet", "vpc", "vpc"]).Name = "network" ∧
    (((GetDefaultRecipe "network" : defaultRecipe String).Append ["vpc"]).Append
      []).Ingredients = ["vpc"] := by
  decide

/-! ### Slash-separated paths -/

/-- The library functions on the paths of the samples. -/
theorem pathClean_samples :
    pathClean "" = "." ∧ pathClean "/" = "/" ∧ pathClean "a//b/./c/.." = "a/b" ∧
    pathClean "/../a" = "/a" ∧ pathClean "../../a/.." = "../.." ∧
    pathClean "a/.." = "." ∧ pathClean "/var/state/store" = "/var/state/store" ∧
    pathJoinElems [".", ".statestore"] = ".statestore" ∧
    pathJoinElems ["/var/state", "store"] = "/var/state/store" ∧
    pathJoinElems ["", ""] = "" ∧ pathJoinElems ["a", ""] = "a" ∧
    pathClean "file:///var/state/store" = "file:/var/state/store" := by
  decide

theorem splitSlash_noSlash (l : List Char) : ∀ e ∈ splitSlash l, '/' ∉ e := by
  induction l with
  | nil => simp [splitSlash]
  | cons c cs ih =>
    unfold splitSlash
    split_ifs with hc
    · intro e he
      rcases List.mem_cons.mp he with rfl | he'
      · simp
      · exact ih e he'
    · cases hs : splitSlash cs with
      | nil =>
        intro e he
        simp only [List.mem_singleton] at he
        subst he
        simpa using fun h => hc h.symm
      | cons e0 es =>
        rw [hs] at ih
        intro e he
        rcases List.mem_cons.mp he with rfl | he'
        · have := ih e0 (by simp)
          simp only [List.mem_cons, not_or]
          exact ⟨fun h => hc h.symm, this⟩
        · exact ih e (by simp [he'])

theorem cleanStep_kept (rooted : Bool) (out : List (List Char)) (elem : List Char)
    (hout : ∀ e ∈ out, e ≠ [] ∧ '/' ∉ e) (helem : '/' ∉ elem) :
    ∀ e ∈ cleanStep rooted out elem, e ≠ [] ∧ '/' ∉ e := by
  have hcons : elem ≠ [] → ∀ e ∈ elem :: out, e ≠ [] ∧ '/' ∉ e := by
    intro hne e he
    rcases List.mem_cons.mp he with rfl | he'
    · exact ⟨hne, helem⟩
    · exact hout e he'
  unfold cleanStep
  by_cases h1 : elem = [] ∨ elem = ['.']
  · rw [if_pos h1]
    exact hout
  · rw [if_neg h1]
    have hne : elem ≠ [] := fun h => h1 (Or.inl h)
    by_cases h2 : elem = ['.', '.']
    · rw [if_pos h2]
      cases out with
      | nil =>
        cases rooted
        · exact hcons hne
        · simp
      | cons top below =>
        by_cases h3 : top = ['.', '.']
        · simp only [h3, if_true]
          rw [← h3]
          exact hcons hne
        · simp only [h3, if_false]
          intro e he
          exact hout e (by simp [he])
    · rw [if_neg h2]
      exact hcons hne

theorem foldl_cleanStep_kept (rooted : Bool) (elems out : List (List Char))
    (hout : ∀ e ∈ out, e ≠ [] ∧ '/' ∉ e) (helems : ∀ e ∈ elems, '/' ∉ e) :
    ∀ e ∈ elems.foldl (cleanStep rooted) out, e ≠ [] ∧ '/' ∉ e := by
  induction elems generalizing out with
  | nil => exact hout
  | cons x xs ih =>
    rw [List.foldl_cons]
    exact ih _ (cleanStep_kept rooted out x hout (helems x (by simp)))
      (fun e he => helems e (by simp [he]))

theorem hasDoubleSlash_noSlash (e : List Char) (h : '/' ∉ e) : hasDoubleSlash e = false := by
  induction e with
  | nil => rfl
  | cons a cs ih =>
    cases cs with
    | nil => rfl
    | cons b ds =>
      have ha : a ≠ '/' := fun hh => h (by simp [hh])
      simp only [hasDoubleSlash, Bool.or_eq_false_iff, Bool.and_eq_false_iff, beq_eq_false_iff_ne]
      exact ⟨Or.inl (by simpa using ha), ih (fun hh => h (by simp [List.mem_cons.mp hh]))⟩

theorem hasDoubleSlash_append_slash (e rest : List Char) (he : e ≠ []) (hs : '/' ∉ e)
    (hrest : hasDoubleSlash rest = false) (hhead : rest.head? ≠ some '/') :
    hasDoubleSlash (e ++ '/' :: rest) = false := by
  induction e with
  | nil => exact absurd rfl he
  | cons a cs ih =>
    have ha : a ≠ '/' := fun hh => hs (by simp [hh])
    have hcs : '/' ∉ cs := fun hh => hs (by simp [hh])
    cases cs with
    | nil =>
      simp only [List.cons_append, List.nil_append, hasDoubleSlash, Bool.or_eq_false_iff,
        Bool.and_eq_false_iff, beq_eq_false_iff_ne]
      refine ⟨Or.inl (by simpa using ha), ?_⟩
      cases rest with
      | nil => rfl
      | cons r rs =>
        simp only [hasDoubleSlash, Bool.or_eq_false_iff, Bool.and_eq_false_iff,
          beq_eq_false_iff_ne]
        refine ⟨Or.inr ?_, hrest⟩
        intro hr
        apply hhead
        simp [hr]
    | cons b ds =>
      have := ih (by simp) hcs
      simp only [List.cons_append, hasDoubleSlash, Bool.or_eq_false_iff,
        Bool.and_eq_false_iff, beq_eq_false_iff_ne] at this ⊢
      exact ⟨Or.inl (by simpa using ha), this⟩

theorem intercalate_slash_kept (elems : List (List Char))
    (h : ∀ e ∈ elems, e ≠ [] ∧ '/' ∉ e) :
    hasDoubleSlash (List.intercalate ['/'] elems) = false ∧
    (List.intercalate ['/'] elems).head? ≠ some '/' := by
  induction elems with
  | nil => simp [List.intercalate, hasDoubleSlash]
  | cons x xs ih =>
    have hx := h x (by simp)
    have hxhead : ∀ t : List Char, (x ++ t).head? ≠ some '/' := by
      intro t
      cases x with
      | nil => exact absurd rfl hx.1
      | cons a as =>
        simp only [List.cons_append, List.head?_cons, ne_eq, Option.some.injEq]
        intro ha
        exact hx.2 (by simp [ha])
    cases xs with
    | nil =>
      have e1 : List.intercalate ['/'] [x] = x := by simp [List.intercalate]
      rw [e1]
      exact ⟨hasDoubleSlash_noSlash x hx.2, by simpa using hxhead []⟩
    | cons y ys =>
      have e2 : List.intercalate ['/'] (x :: y :: ys) =
          x ++ '/' :: List.intercalate ['/'] (y :: ys) := by
        simp [List.intercalate, List.intersperse]
      have ih' := ih (fun e he => h e (by simp [List.mem_cons.mp he]))
      rw [e2]
      exact ⟨hasDoubleSlash_append_slash x _ hx.1 hx.2 ih'.1 ih'.2, hxhead _⟩

/-- The result of `path.Clean` never has two slashes in a row. -/
theorem pathClean_noDoubleSlash (path : String) :
    hasDoubleSlash (pathClean path).data = false := by
  unfold pathClean
  by_cases h1 : path = ""
  · rw [if_pos h1]
    rfl
  · rw [if_neg h1]
    have hk := intercalate_slash_kept
      ((splitSlash path.data).foldl (cleanStep (path.data.head? = some '/')) []).reverse
      (fun e he => foldl_cleanStep_kept _ _ [] (by simp) (splitSlash_noSlash _) e
        (List.mem_reverse.mp he))
    simp only
    generalize List.intercalate ['/']
      ((splitSlash path.data).foldl (cleanStep (path.data.head? = some '/')) []).reverse = body
      at hk ⊢
    by_cases h2 : path.data.head? = some '/'
    · rw [if_pos h2]
      cases body with
      | nil => rfl
      | cons b bs =>
        simp only [hasDoubleSlash, Bool.or_eq_false_iff, Bool.and_eq_false_iff,
          beq_eq_false_iff_ne]
        refine ⟨Or.inr ?_, hk.1⟩
        intro hb
        apply hk.2
        simp [hb]
    · rw [if_neg h2]
      by_cases h3 : body = []
      · rw [if_pos h3]
        rfl
      · rw [if_neg h3]
        exact hk.1

/-- The function `path.Clean` changes every string that begins with
`file://`. -/
theorem pathClean_file_uri_ne (absPath : String) :
    pathClean ("file://" ++ absPath) ≠ "file://" ++ absPath := by
  intro h
  have h1 := pathClean_noDoubleSlash ("file://" ++ absPath)
  rw [h] at h1
  have h2 : hasDoubleSlash ("file://" ++ absPath).data = true := by
    rw [String.data_append]
    show hasDoubleSlash ('f' :: 'i' :: 'l' :: 'e' :: ':' :: '/' :: '/' :: absPath.data) = true
    simp [hasDoubleSlash]
  rw [h1] at h2
  cases h2

/-! ### Opening the local store -/

/-- What a successful `StoreOpen` of the local store does, for every set of
collaborators: it creates the state directory, sets the passphrase, runs the
login in the working directory, and returns `file://` followed by the
absolute path of the joined path and name; the string handed to the login is
`path.Clean` of that URI, which is never that URI. -/
theorem DefaultStateStore_StoreOpen_run {σ : Type} (env : Env σ) (ss : DefaultStateStore)
    (s : σ) (uri : String) (h : (ss.StoreOpen env s).out = .ok uri) :
    uri = "file://" ++ env.filepathAbs (env.pathJoin ss.path ss.name) s ∧
    (∃ pwd, (ss.StoreOpen env s).events.map Event.call =
      [.MkdirAll (env.pathJoin ss.path ss.name) ModePerm,
       .Setenv "PULUMI_CONFIG_PASSPHRASE" "we need a persistent token for the project here",
       .Exec (some pwd) "pulumi" ["login", pathClean uri]]) ∧
    pathClean uri ≠ uri := by
  unfold DefaultStateStore.StoreOpen at h ⊢
  simp only at h ⊢
  rcases callErr_cases (.MkdirAll (env.pathJoin ss.path ss.name) ModePerm) id
    (env.MkdirAll (env.pathJoin ss.path ss.name) ModePerm) s with ⟨e1, _⟩ | ⟨e, e1, _⟩
  · rw [e1, Res.andThen_ok _ _ () rfl] at h ⊢
    simp only at h ⊢
    generalize (env.MkdirAll (env.pathJoin ss.path ss.name) ModePerm s).2 = s1 at h ⊢
    rcases callErr_cases
      (.Setenv "PULUMI_CONFIG_PASSPHRASE" "we need a persistent token for the project here") id
      (env.Setenv "PULUMI_CONFIG_PASSPHRASE" "we need a persistent token for the project here")
      s1 with ⟨e2, _⟩ | ⟨e, e2, _⟩
    · rw [e2, Res.andThen_ok _ _ () rfl] at h ⊢
      simp only at h ⊢
      generalize (env.Setenv "PULUMI_CONFIG_PASSPHRASE"
        "we need a persistent token for the project here" s1).2 = s2 at h ⊢
      rcases callErr_cases
        (.Exec (some (env.Getwd s2)) "pulumi"
          ["login", pathClean ("file://" ++ env.filepathAbs (env.pathJoin ss.path ss.name) s)])
        id
        (env.Exec (some (env.Getwd s2)) "pulumi"
          ["login", pathClean ("file://" ++ env.filepathAbs (env.pathJoin ss.path ss.name) s)])
        s2 with ⟨e3, _⟩ | ⟨e, e3, _⟩
      · rw [e3, Res.andThen_ok _ _ () rfl] at h ⊢
        simp only [Res.pure] at h ⊢
        have hu := (Outcome.ok.inj h).symm
        subst hu
        exact ⟨rfl, ⟨env.Getwd s2, by simp⟩, pathClean_file_uri_ne _⟩
      · rw [e3, Res.andThen_err _ _ _ rfl] at h
        cases h
    · rw [e2, Res.andThen_err _ _ _ rfl] at h
      cases h
  · rw [e1, Res.andThen_err _ _ _ rfl] at h
    cases h

/-- C12, the code on two stores, in a process with working directory `/work`
where every call succeeds.  The store of `/var/state` and `store` returns
`file:///var/state/store`, and the store of the defaults (`.` and
`.statestore`) returns `file:///work/.statestore`: each is `file://` followed
by the absolute path of the joined path and name.  The string handed to the
login is `file:/var/state/store`, respectively `file:/work/.statestore`: not
the returned URI; and whatever the absolute path, `path.Clean` of the URI is
not the URI. -/
theorem DefaultStateStore_StoreOpen_login_uri_differs :
    (sampleLocalStore.StoreOpen workEnv ()).out = .ok "file:///var/state/store" ∧
    (sampleLocalStore.StoreOpen workEnv ()).events =
      [⟨.MkdirAll "/var/state/store" 0o777, none⟩,
       ⟨.Setenv "PULUMI_CONFIG_PASSPHRASE" "we need a persistent token for the project here",
        none⟩,
       ⟨.Exec (some "/work") "pulumi" ["login", "file:/var/state/store"], none⟩] ∧
    GetDefaultStateStore "" "" = ⟨".statestore", "."⟩ ∧
    ((GetDefaultStateStore "" "").StoreOpen workEnv ()).out = .ok "file:///work/.statestore" ∧
    ((GetDefaultStateStore "" "").StoreOpen workEnv ()).events =
      [⟨.MkdirAll ".statestore" 0o777, none⟩,
       ⟨.Setenv "PULUMI_CONFIG_PASSPHRASE" "we need a persistent token for the project here",
        none⟩,
       ⟨.Exec (some "/work") "pulumi" ["login", "file:/work/.statestore"], none⟩] ∧
    (∀ absPath : String, pathClean ("file://" ++ absPath) ≠ "file://" ++ absPath) := by
  refine ⟨by decide, by decide, by decide, by decide, by decide, ?_⟩
  intro absPath
  exact pathClean_file_uri_ne absPath

/-! ### The continuation token of the current-object loop -/

/-- The first call of an iteration of the first loop is the list-objects
request keyed by the loop's current token. -/
theorem listObjectsLoop_first_call {σ : Type} (env : Env σ) (bucket : String) (fuel : Nat)
    (token : Option String) (s : σ) :
    ((listObjectsLoop env bucket (fuel + 1) token s).events.map Event.call).head? =
      some (.ListObjectsV2 bucket token) := by
  rw [listObjectsLoop]
  rcases callOut_cases (.ListObjectsV2 bucket token) id (env.ListObjectsV2 bucket token) s
    with ⟨out, e1, _⟩ | ⟨e, e1, _⟩
  · rw [e1, Res.andThen_ok _ _ out rfl]
    rfl
  · rw [e1, Res.andThen_err _ _ _ rfl]
    rfl

/-- One iteration of the first loop on a truncated page whose entries are all
deleted: the loop goes on with the token found in the response's
`ContinuationToken` field (the token of the request just made), and the
response's `NextContinuationToken` is not read. -/
theorem listObjectsLoop_truncated_step {σ : Type} (env : Env σ) (bucket : String)
    (fuel : Nat) (token : Option String) (s : σ) (out : ListObjectsV2Output)
    (h : (env.ListObjectsV2 bucket token s).1 = .ok out) (ht : out.IsTruncated = true)
    (hd : (deleteContents env bucket out.Contents (env.ListObjectsV2 bucket token s).2).out
      = .ok ()) :
    (listObjectsLoop env bucket (fuel + 1) token s).events =
      [⟨.ListObjectsV2 bucket token, none⟩] ++
      (deleteContents env bucket out.Contents (env.ListObjectsV2 bucket token s).2).events ++
      (listObjectsLoop env bucket fuel out.ContinuationToken
        (deleteContents env bucket out.Contents (env.ListObjectsV2 bucket token s).2).st).events
      ∧
    (listObjectsLoop env bucket (fuel + 1) token s).out =
      (listObjectsLoop env bucket fuel out.ContinuationToken
        (deleteContents env bucket out.Contents (env.ListObjectsV2 bucket token s).2).st).out
      := by
  rw [listObjectsLoop]
  have e1 : callOut (.ListObjectsV2 bucket token) id (env.ListObjectsV2 bucket token) s =
      ⟨.ok out, (env.ListObjectsV2 bucket token s).2, [⟨.ListObjectsV2 bucket token, none⟩]⟩ := by
    unfold callOut
    rw [h]
  rw [e1, Res.andThen_ok _ _ out rfl]
  simp only [ht, if_true]
  rw [Res.andThen_ok _ _ () hd]
  simp

/-- C13, the code on the two-page listing: the first response is truncated and
names `page-2` as the token of the following page, yet for every iteration
budget every list-objects request of the loop is the request without token
(the token the first request was sent with); the requests do not advance, the
loop makes one request per unit of budget and has not ended. -/
theorem listObjectsLoop_rekeys_with_request_token (fuel : Nat) :
    (twoPageEnv.ListObjectsV2 "my-app-prd-state" none ()).1 =
      .ok ⟨[⟨"a"⟩], true, none, some "page-2"⟩ ∧
    ((listObjectsLoop twoPageEnv "my-app-prd-state" fuel none ()).events.filterMap
        listRequestToken) = List.replicate fuel none ∧
    (∀ ev ∈ (listObjectsLoop twoPageEnv "my-app-prd-state" fuel none ()).events,
      listRequestToken ev ≠ some (some "page-2")) ∧
    (listObjectsLoop twoPageEnv "my-app-prd-state" fuel none ()).out = .outOfFuel := by
  have hloop := listObjectsLoop_twoPageEnv "my-app-prd-state" fuel
  have htok : ((listObjectsLoop twoPageEnv "my-app-prd-state" fuel none ()).events.filterMap
      listRequestToken) = List.replicate fuel none := by
    rw [hloop.2]
    clear hloop
    induction fuel with
    | zero => rfl
    | succ n ih =>
      rw [List.replicate_succ, List.flatten_cons, List.filterMap_append, ih]
      rfl
  refine ⟨rfl, htok, ?_, hloop.1⟩
  intro ev hev htk
  have hmem : some "page-2" ∈
      (listObjectsLoop twoPageEnv "my-app-prd-state" fuel none ()).events.filterMap
        listRequestToken := List.mem_filterMap.mpr ⟨ev, hev, htk⟩
  rw [htok] at hmem
  have := (List.mem_replicate.mp hmem).2
  cases this

/-! ### The forced purge on a bucket that applies its deletes -/

/-- The run of the witness of C1, call by call. -/
theorem deleteBucket_sampleBucket_run :
    (sampleStore.deleteBucket (bucketEnv 0 1 leaveDeleteMarker) 13 true
      sampleBucket).events.map Event.call =
      [.ListObjectsV2 "my-app-prd-state" none,
       .DeleteObject "my-app-prd-state" "a" none,
       .ListObjectsV2 "my-app-prd-state" none,
       .DeleteObject "my-app-prd-state" "b" none,
       .ListObjectsV2 "my-app-prd-state" none,
       .DeleteObject "my-app-prd-state" "c" none,
       .ListObjectVersions "my-app-prd-state" none none,
       .DeleteObject "my-app-prd-state" "c" (some "dc"),
       .DeleteObject "my-app-prd-state" "b" (some "db"),
       .ListObjectVersions "my-app-prd-state" (some "b") (some "db"),
       .DeleteObject "my-app-prd-state" "a" (some "da"),
       .DeleteObject "my-app-prd-state" "a" (some "v2"),
       .ListObjectVersions "my-app-prd-state" (some "a") (some "v2"),
       .DeleteObject "my-app-prd-state" "a" (some "v1"),
       .DeleteObject "my-app-prd-state" "b" (some "v1"),
       .ListObjectVersions "my-app-prd-state" (some "b") (some "v1"),
       .DeleteObject "my-app-prd-state" "z" (some "m1"),
       .DeleteObject "my-app-prd-state" "c" (some "v1"),
       .ListObjectVersions "my-app-prd-state" (some "z") (some "m1"),
       .DeleteObject "my-app-prd-state" "z" (some "v1"),
       .DeleteBucket "my-app-prd-state"] ∧
    (sampleStore.deleteBucket (bucketEnv 0 1 leaveDeleteMarker) 13 true sampleBucket).st =
      ⟨[], historyAfterCurrent leaveDeleteMarker sampleBucket,
        [("z", "v1"), ("c", "v1"), ("z", "m1"), ("b", "v1"), ("a", "v1"), ("a", "v2"),
         ("a", "da"), ("b", "db"), ("c", "dc")]⟩ := by
  decide

/-- The continuation token on a bucket that applies its deletes, keys `a` and
`b` one per page: the first page is truncated and names `a` as the token of
the next page; the second request is again the request without token, and it
is answered with `b` because `a` is no longer in the bucket. -/
theorem listObjectsLoop_bucket_second_request :
    ((bucketEnv 0 0 leaveDeleteMarker).ListObjectsV2 "my-app-prd-state" none
      ⟨["a", "b"], [], []⟩).1 = .ok ⟨[⟨"a"⟩], true, none, some "a"⟩ ∧
    (listObjectsLoop (bucketEnv 0 0 leaveDeleteMarker) "my-app-prd-state" 2 none
      ⟨["a", "b"], [], []⟩).events.map Event.call =
      [.ListObjectsV2 "my-app-prd-state" none, .DeleteObject "my-app-prd-state" "a" none,
       .ListObjectsV2 "my-app-prd-state" none, .DeleteObject "my-app-prd-state" "b" none] ∧
    (listObjectsLoop (bucketEnv 0 0 leaveDeleteMarker) "my-app-prd-state" 2 none
      ⟨["a", "b"], [], []⟩).out = .ok () :=
  ⟨rfl, by decide, by decide⟩

end CloudPrism
